import Mathlib

/-!
# Wall-network topology and joint-resolution engine: a shallow embedding

This file embeds the core geometric subsystem of the BIM wall editor:

* `wallsAreConnected` / `buildWallNetworks` — flood-fill grouping of walls
  into connected networks (source: `wall-networks` module);
* `findConnectionPoints` / `detectJointType` — junction discovery and
  classification (source: wall-joints module);
* `calculateButtExtension` / `calculateMiterExtension` /
  `determineExtendingWall` / `processWallNetwork` — the joint-geometry
  resolver;
* `unionWallGeometries` — the pairwise CSG-union fold of the network mesh
  assembler (source: `rebuildScene`).

JavaScript numbers are modelled by `ℝ`; `three.js` `Vector3` operations
(`distanceTo`, `normalize`, `dot`, …) are modelled by their exact real
counterparts.  Division by zero in `ℝ` (Lean convention `x / 0 = 0`) only
arises for degenerate inputs that the relevant theorems exclude by
hypothesis.  Unused `BIMWall` fields (height, doors, …) are omitted; the
string keys of the endpoint `Map` are omitted because bucket matching is
done by distance, never by key.
-/

noncomputable section

open Classical

namespace BIM

/-- three.js `Vector3` restricted to the operations the source uses. -/
structure Vector3 where
  x : ℝ
  y : ℝ
  z : ℝ

namespace Vector3

/-- `new Vector3().subVectors(a, b)` = `a - b`. -/
def subVectors (a b : Vector3) : Vector3 :=
  ⟨a.x - b.x, a.y - b.y, a.z - b.z⟩

/-- `new Vector3().addVectors(a, b)` = `a + b`. -/
def addVectors (a b : Vector3) : Vector3 :=
  ⟨a.x + b.x, a.y + b.y, a.z + b.z⟩

/-- `v.multiplyScalar(s)`. -/
def multiplyScalar (v : Vector3) (s : ℝ) : Vector3 :=
  ⟨v.x * s, v.y * s, v.z * s⟩

/-- `a.dot(b)`. -/
def dot (a b : Vector3) : ℝ :=
  a.x * b.x + a.y * b.y + a.z * b.z

/-- Squared length. -/
def lengthSq (v : Vector3) : ℝ :=
  v.x * v.x + v.y * v.y + v.z * v.z

/-- `v.length()`. -/
def length (v : Vector3) : ℝ :=
  Real.sqrt v.lengthSq

/-- `a.distanceTo(b)`. -/
def distanceTo (a b : Vector3) : ℝ :=
  (subVectors a b).length

/-- `v.normalize()` (three.js divides by the length; for the zero vector the
JS result is NaN-valued, the model returns the zero vector — every use below
is guarded by a non-degeneracy hypothesis). -/
def normalize (v : Vector3) : Vector3 :=
  v.multiplyScalar (1 / v.length)

end Vector3

/-- `BIMWall`, restricted to the fields the wall-joint core reads
(`id`, `start`, `end`, `thickness`). -/
structure Wall where
  id : String
  start : Vector3
  «end» : Vector3
  thickness : ℝ

/-! ## Wall-network builder (`wallsAreConnected`, `buildWallNetworks`) -/

/-- `wallsAreConnected`: two walls share an endpoint (within tolerance),
checking all four endpoint combinations. -/
def wallsAreConnected (wall1 wall2 : Wall) (tolerance : ℝ := 0.01) : Prop :=
  wall1.start.distanceTo wall2.start < tolerance ∨
  wall1.start.distanceTo wall2.«end» < tolerance ∨
  wall1.«end».distanceTo wall2.start < tolerance ∨
  wall1.«end».distanceTo wall2.«end» < tolerance

/-- A network of connected walls (`WallNetwork`); the JS `Set<string>` of ids
is modelled as a duplicate-free list in insertion order. -/
structure WallNetwork where
  wallIds : List String
  walls : List Wall

/-- One flood-fill visit (`addConnectedWalls` in the source): mark the wall
visited, append it to the network, then scan `allWalls` for unvisited
connected walls and recurse on each.  The JS recursion is bounded only by
the growth of `visited`; the model adds a fuel argument, and
`buildWallNetworks` supplies fuel `walls.length`, which is shown sufficient
(`addConnectedWalls_conn` below). -/
def addConnectedWalls (allWalls : List Wall) :
    Nat → Wall → List String × WallNetwork → List String × WallNetwork
  | 0, _, st => st
  | fuel + 1, wall, st =>
    if wall.id ∈ st.1 then st
    else
      let st1 : List String × WallNetwork :=
        (wall.id :: st.1, ⟨st.2.wallIds ++ [wall.id], st.2.walls ++ [wall]⟩)
      allWalls.foldl
        (fun st' otherWall =>
          if otherWall.id ∉ st'.1 ∧ wallsAreConnected wall otherWall
          then addConnectedWalls allWalls fuel otherWall st'
          else st') st1

/-- The outer loop of `buildWallNetworks`: process each wall in order,
starting a fresh network from every wall not yet visited. -/
def buildWallNetworksLoop (allWalls : List Wall) (fuel : Nat) :
    List Wall → List String → List WallNetwork → List String × List WallNetwork
  | [], visited, networks => (visited, networks)
  | wall :: rest, visited, networks =>
    if wall.id ∈ visited then buildWallNetworksLoop allWalls fuel rest visited networks
    else
      let res := addConnectedWalls allWalls fuel wall (visited, ⟨[], []⟩)
      buildWallNetworksLoop allWalls fuel rest res.1 (networks ++ [res.2])

/-- `buildWallNetworks`: group walls into connected components by flood fill. -/
def buildWallNetworks (walls : List Wall) : List WallNetwork :=
  match walls with
  | [] => []
  | _ => (buildWallNetworksLoop walls walls.length walls [] []).2

/-- Number of `allWalls` ids not yet visited: the measure showing the fuel
`walls.length` given by `buildWallNetworks` suffices. -/
def countUnvisited (allWalls : List Wall) (visited : List String) : Nat :=
  (allWalls.map Wall.id).countP fun i => decide (i ∉ visited)

/-- Invariant of the outer `buildWallNetworks` loop: visited ids are exactly
the ids grouped so far, grouped ids are duplicate-free, networks draw only
from `allWalls`, every grouped wall has all its connected partners in its own
network, and a wall connected to nothing is grouped as a singleton. -/
def LoopInvariant (allWalls : List Wall) (visited : List String)
    (networks : List WallNetwork) : Prop :=
  (∀ x, x ∈ visited ↔ ∃ net ∈ networks, x ∈ net.walls.map Wall.id) ∧
  ((networks.map WallNetwork.walls).flatten.map Wall.id).Nodup ∧
  (∀ net ∈ networks, ∀ u ∈ net.walls, u ∈ allWalls) ∧
  (∀ net ∈ networks, ∀ n ∈ net.walls, ∀ other ∈ allWalls,
    wallsAreConnected n other 0.01 → other.id ∈ net.walls.map Wall.id) ∧
  (∀ net ∈ networks, ∀ w ∈ net.walls,
    (∀ w' ∈ allWalls, w' ≠ w → ¬ wallsAreConnected w w' 0.01) →
    net.walls = [w])

/-! ## Junction classifier -/

/-- `JointType`. -/
inductive JointType where
  | L_JOINT
  | T_JOINT
  | X_JOINT
  | OBLIQUE
  | NONE
deriving DecidableEq

/-- `WallJointMethod`. -/
inductive WallJointMethod where
  | auto
  | butt
  | miter
deriving DecidableEq

/-- `ConnectionPoint`. -/
structure ConnectionPoint where
  point : Vector3
  walls : List Wall
  jointType : JointType

/-- `ExtendedWallGeometry`. -/
structure ExtendedWallGeometry where
  wallId : String
  originalStart : Vector3
  originalEnd : Vector3
  extendedStart : Vector3
  extendedEnd : Vector3
  wasExtended : Bool

/-- `getDirectionFromPoint`: unit direction pointing away from `point` along
the wall (toward the other endpoint). -/
def getDirectionFromPoint (wall : Wall) (point : Vector3) (tolerance : ℝ := 0.01) :
    Vector3 :=
  if wall.start.distanceTo point < tolerance then
    (Vector3.subVectors wall.«end» wall.start).normalize
  else
    (Vector3.subVectors wall.start wall.«end»).normalize

/-- `detectJointType`: classify by the number of walls touching the point,
with the 2-wall case split on the angle between the away-pointing directions
(collinear continuations within 0.1 rad of `π` are `NONE`). -/
def detectJointType (walls : List Wall) (point : Vector3) (tolerance : ℝ := 0.01) :
    JointType :=
  match walls.filter fun w =>
    decide (w.start.distanceTo point < tolerance ∨ w.«end».distanceTo point < tolerance) with
  | [w1, w2] =>
    let dir1 := getDirectionFromPoint w1 point
    let dir2 := getDirectionFromPoint w2 point
    let dotProduct := dir1.dot dir2
    let angle := Real.arccos (max (-1) (min 1 dotProduct))
    if |angle - Real.pi| < 0.1 then JointType.NONE else JointType.L_JOINT
  | [_, _, _] => JointType.T_JOINT
  | [_, _, _, _] => JointType.X_JOINT
  | _ :: _ :: _ :: _ :: _ :: _ => JointType.OBLIQUE
  | _ => JointType.NONE

/-- `calculateAngleBetweenWalls`: angle between the two away-pointing
directions, the dot product clamped to `[-1, 1]` before `arccos`. -/
def calculateAngleBetweenWalls (wall1 wall2 : Wall) (point : Vector3) : ℝ :=
  let dir1 := getDirectionFromPoint wall1 point
  let dir2 := getDirectionFromPoint wall2 point
  Real.arccos (max (-1) (min 1 (dir1.dot dir2)))

/-! ## Joint-geometry resolver -/

/-- Result record of the two `calculate*Extension` functions. -/
structure ExtensionResult where
  start : Vector3
  «end» : Vector3
  wasExtended : Bool

/-- `calculateButtExtension`: displace the endpoint sitting at the
connection along the wall axis by `intersectingWallThickness / 2 + 0.01`
(the code computes `newStart = start - wallDir * extensionDist` with
`wallDir` pointing from the connection endpoint toward the far endpoint). -/
def calculateButtExtension (wall : Wall) (point : Vector3)
    (intersectingWallThickness : ℝ) : ExtensionResult :=
  let start := wall.start
  let «end» := wall.«end»
  let overlapMargin : ℝ := 0.01
  let extensionDist := intersectingWallThickness / 2 + overlapMargin
  if start.distanceTo point < 0.01 then
    let wallDir := (Vector3.subVectors «end» start).normalize
    { start := Vector3.subVectors start (wallDir.multiplyScalar extensionDist),
      «end» := «end», wasExtended := true }
  else if «end».distanceTo point < 0.01 then
    let wallDir := (Vector3.subVectors start «end»).normalize
    { start := start,
      «end» := Vector3.subVectors «end» (wallDir.multiplyScalar extensionDist),
      wasExtended := true }
  else
    { start := start, «end» := «end», wasExtended := false }

/-- `calculateMiterExtension`: extend the endpoint at the connection past
the junction by `(thickness / 2) / tan(angle / 2) + 0.01`, falling back to
the butt extension when `|sin(angle / 2)| < 0.1`. -/
def calculateMiterExtension (wall : Wall) (point : Vector3) (angle : ℝ) :
    ExtensionResult :=
  let start := wall.start
  let «end» := wall.«end»
  let miterAngle := angle / 2
  if |Real.sin miterAngle| < 0.1 then
    calculateButtExtension wall point wall.thickness
  else
    let overlapMargin : ℝ := 0.01
    let extensionDist := wall.thickness / 2 / Real.tan miterAngle + overlapMargin
    if start.distanceTo point < 0.01 then
      let wallDir := (Vector3.subVectors start «end»).normalize
      { start := Vector3.addVectors start (wallDir.multiplyScalar extensionDist),
        «end» := «end», wasExtended := true }
    else if «end».distanceTo point < 0.01 then
      let wallDir := (Vector3.subVectors «end» start).normalize
      { start := start,
        «end» := Vector3.addVectors «end» (wallDir.multiplyScalar extensionDist),
        wasExtended := true }
    else
      { start := start, «end» := «end», wasExtended := false }

/-- `determineExtendingWall`: the first wall of maximal endpoint-to-endpoint
length (the fold replaces the candidate only on a strictly greater length).
The source returns `undefined` on an empty list; real call sites always pass
`≥ 2` walls, so the model's `[]` case returns a junk wall. -/
def determineExtendingWall (walls : List Wall) : Wall :=
  match walls with
  | [] => { id := "", start := ⟨0, 0, 0⟩, «end» := ⟨0, 0, 0⟩, thickness := 0 }
  | w0 :: rest =>
    rest.foldl
      (fun extendingWall w =>
        if w.start.distanceTo w.«end» > extendingWall.start.distanceTo extendingWall.«end»
        then w else extendingWall) w0

/-! ## Connection-point discovery (`findConnectionPoints`) -/

/-- One bucket of the endpoint map: the stored point and the walls meeting
it. -/
abbrev PointBucket := Vector3 × List Wall

/-- Insert one wall endpoint into the point map: scan the buckets in order
for the first whose stored point is within tolerance and add the wall there
(the end-point pass additionally skips the wall when already present —
`dedup = true`); otherwise append a fresh bucket holding the endpoint. -/
def insertEndpoint : List PointBucket → Vector3 → Wall → Bool → ℝ → List PointBucket
  | [], p, wall, _, _ => [(p, [wall])]
  | (q, ws) :: rest, p, wall, dedup, tolerance =>
    if q.distanceTo p < tolerance then
      (q, if dedup ∧ wall ∈ ws then ws else ws ++ [wall]) :: rest
    else
      (q, ws) :: insertEndpoint rest p wall dedup tolerance

/-- The `pointMap` built by `findConnectionPoints`: each wall contributes its
start point (no duplicate check) and then its end point (with duplicate
check), in input order. -/
def buildPointMap (walls : List Wall) (tolerance : ℝ) : List PointBucket :=
  walls.foldl
    (fun pointMap wall =>
      insertEndpoint (insertEndpoint pointMap wall.start wall false tolerance)
        wall.«end» wall true tolerance) []

/-- `findConnectionPoints`: keep the buckets with at least two walls and
classify each. -/
def findConnectionPoints (walls : List Wall) (tolerance : ℝ := 0.01) :
    List ConnectionPoint :=
  (buildPointMap walls tolerance).filterMap fun b =>
    if 2 ≤ b.2.length then
      some { point := b.1, walls := b.2, jointType := detectJointType b.2 b.1 tolerance }
    else none

/-! ## The resolver (`processWallNetwork`) -/

/-- The extensions `Map<string, ExtendedWallGeometry>`, modelled by its
lookup function. -/
def ExtMap := String → Option ExtendedWallGeometry

/-- `Map.set`. -/
def ExtMap.set (m : ExtMap) (id : String) (g : ExtendedWallGeometry) : ExtMap :=
  fun x => if x = id then some g else m x

/-- The initial record for a wall: no extension. -/
def initialGeometry (wall : Wall) : ExtendedWallGeometry :=
  { wallId := wall.id,
    originalStart := wall.start, originalEnd := wall.«end»,
    extendedStart := wall.start, extendedEnd := wall.«end»,
    wasExtended := false }

/-- The per-wall body of the miter branch: compute the extension and write
it into whichever endpoint sits at the connection (the source's
`extensions.get(wall.id)!` is total on resolver inputs; a missing key leaves
the map unchanged). -/
def miterUpdate (point : Vector3) (angle : ℝ) (m : ExtMap) (wall : Wall) : ExtMap :=
  match m wall.id with
  | none => m
  | some existing =>
    let ext := calculateMiterExtension wall point angle
    let isStartAtPoint := wall.start.distanceTo point < 0.01
    let isEndAtPoint := wall.«end».distanceTo point < 0.01
    if isStartAtPoint then
      m.set wall.id { existing with
        extendedStart := ext.start,
        wasExtended := ext.wasExtended || existing.wasExtended }
    else if isEndAtPoint then
      m.set wall.id { existing with
        extendedEnd := ext.«end»,
        wasExtended := ext.wasExtended || existing.wasExtended }
    else m

/-- The miter branch of `processWallNetwork` for one connection: the angle
is taken between the first two walls, then every wall at the connection is
updated.  (The branch guard guarantees exactly two walls; the `_ => m`
fallback is dead.) -/
def miterConnection (m : ExtMap) (point : Vector3) (connectedWalls : List Wall) :
    ExtMap :=
  match connectedWalls with
  | w1 :: w2 :: _ =>
    let angle := calculateAngleBetweenWalls w1 w2 point
    connectedWalls.foldl (miterUpdate point angle) m
  | _ => m

/-- The per-wall body of the butt branch: note the source updates
`extendedEnd` in the bare `else` (no second distance test). -/
def buttUpdate (point : Vector3) (extendingWallThickness : ℝ) (m : ExtMap)
    (wall : Wall) : ExtMap :=
  match m wall.id with
  | none => m
  | some existing =>
    let ext := calculateButtExtension wall point extendingWallThickness
    if wall.start.distanceTo point < 0.01 then
      m.set wall.id { existing with
        extendedStart := ext.start,
        wasExtended := ext.wasExtended || existing.wasExtended }
    else
      m.set wall.id { existing with
        extendedEnd := ext.«end»,
        wasExtended := ext.wasExtended || existing.wasExtended }

/-- The butt branch of `processWallNetwork` for one connection: designate
the through wall, force its `wasExtended` flag to `false`, and butt-extend
every other wall against the through wall's thickness. -/
def buttConnection (m : ExtMap) (point : Vector3) (connectedWalls : List Wall) :
    ExtMap :=
  let extendingWall := determineExtendingWall connectedWalls
  let buttingWalls := connectedWalls.filter fun w => decide (w.id ≠ extendingWall.id)
  let m1 : ExtMap :=
    match m extendingWall.id with
    | none => m
    | some extWall => m.set extendingWall.id { extWall with wasExtended := false }
  buttingWalls.foldl (buttUpdate point extendingWall.thickness) m1

/-- Dispatch for one connection point: `NONE` joints are skipped; `auto`
resolves to miter for L-joints and butt otherwise; the miter branch
additionally requires an L-joint with exactly two walls, everything else
falls to the butt branch. -/
def processConnection (jointMethod : WallJointMethod) (m : ExtMap)
    (connection : ConnectionPoint) : ExtMap :=
  if connection.jointType = JointType.NONE then m
  else
    let method :=
      if jointMethod = WallJointMethod.auto then
        if connection.jointType = JointType.L_JOINT then WallJointMethod.miter
        else WallJointMethod.butt
      else jointMethod
    if method = WallJointMethod.miter ∧ connection.jointType = JointType.L_JOINT ∧
        connection.walls.length = 2 then
      miterConnection m connection.point connection.walls
    else
      buttConnection m connection.point connection.walls

/-- `processWallNetwork`: initialise every wall with its unextended record,
then fold the per-connection resolution over the discovered connection
points. -/
def processWallNetwork (walls : List Wall)
    (jointMethod : WallJointMethod := WallJointMethod.auto) : ExtMap :=
  let extensions : ExtMap :=
    walls.foldl (fun m wall => m.set wall.id (initialGeometry wall)) (fun _ => none)
  let connectionPoints := findConnectionPoints walls
  connectionPoints.foldl (processConnection jointMethod) extensions

/-! ## Network mesh assembler: the pairwise union fold (`rebuildScene`) -/

/-- One step of the union fold: on success the result replaces the running
geometry, on failure (`none`) the running geometry is kept and the operand
is dropped. -/
def unionStep {G : Type*} (performBoolean : G → G → Option G) (unified g : G) : G :=
  match performBoolean unified g with
  | some result => result
  | none => unified

/-- The union loop of `rebuildScene`: a single geometry is returned as is;
otherwise the remaining geometries are folded pairwise onto the first
(`none` for an empty network, where the source leaves `unifiedGeometry`
null and returns early). -/
def unionWallGeometries {G : Type*} (performBoolean : G → G → Option G) :
    List G → Option G
  | [] => none
  | [g] => some g
  | g :: rest => some (rest.foldl (unionStep performBoolean) g)

/-- Auxiliary relation for resolver invariants: the second map has the same
domain as the first and preserves the identity and original-endpoint fields
of every record (the resolver only ever rewrites extended endpoints and the
`wasExtended` flag). -/
def PreservesMeta (m m' : ExtMap) : Prop :=
  ∀ x, (m' x = none ↔ m x = none) ∧
    ∀ g g', m x = some g → m' x = some g' →
      g'.wallId = g.wallId ∧ g'.originalStart = g.originalStart ∧
        g'.originalEnd = g.originalEnd

/-! ## Concrete fixture walls used by witnesses and counterexamples -/

/-- T-fixture: wall `A` ends at the origin. -/
def wallTA : Wall := ⟨"A", ⟨-1, 0, 0⟩, ⟨0, 0, 0⟩, 0.25⟩

/-- T-fixture: wall `B` (the longest, thickness 0.5) starts at the origin. -/
def wallTB : Wall := ⟨"B", ⟨0, 0, 0⟩, ⟨1.5, 0, 0⟩, 0.5⟩

/-- T-fixture: wall `C` starts at the origin, perpendicular to `A` and `B`. -/
def wallTC : Wall := ⟨"C", ⟨0, 0, 0⟩, ⟨0, 0, 1⟩, 0.375⟩

/-- Chain fixture: wall `V` (length 2) ends at the origin. -/
def wallCV : Wall := ⟨"V", ⟨-2, 0, 0⟩, ⟨0, 0, 0⟩, 0.375⟩

/-- Chain fixture: wall `W` (length 1) from the origin to `(0,0,1)`. -/
def wallCW : Wall := ⟨"W", ⟨0, 0, 0⟩, ⟨0, 0, 1⟩, 0.375⟩

/-- Chain fixture: wall `U` (length 0.5) starting at `(0,0,1)`. -/
def wallCU : Wall := ⟨"U", ⟨0, 0, 1⟩, ⟨0.5, 0, 1⟩, 0.375⟩

/-! ## Basic vector lemmas -/

namespace Vector3

theorem lengthSq_nonneg (v : Vector3) : 0 ≤ v.lengthSq := by
  have hx : 0 ≤ v.x * v.x := mul_self_nonneg _
  have hy : 0 ≤ v.y * v.y := mul_self_nonneg _
  have hz : 0 ≤ v.z * v.z := mul_self_nonneg _
  unfold lengthSq; linarith

theorem length_nonneg (v : Vector3) : 0 ≤ v.length :=
  Real.sqrt_nonneg _

theorem distanceTo_comm (a b : Vector3) : a.distanceTo b = b.distanceTo a := by
  unfold distanceTo length lengthSq subVectors
  ring_nf

theorem distanceTo_self (a : Vector3) : a.distanceTo a = 0 := by
  unfold distanceTo length lengthSq subVectors
  simp [Real.sqrt_eq_zero']

/-- Comparing a distance against a positive bound reduces to comparing
squared distances: the sole bridge from `Real.sqrt` guards back to rational
arithmetic. -/
theorem distanceTo_lt_iff {a b : Vector3} {t : ℝ} (ht : 0 < t) :
    a.distanceTo b < t ↔ (subVectors a b).lengthSq < t ^ 2 := by
  unfold distanceTo length
  rw [show t ^ 2 = t * t by ring]
  constructor
  · intro h
    have h0 := Real.sqrt_nonneg (subVectors a b).lengthSq
    calc (subVectors a b).lengthSq
        = Real.sqrt (subVectors a b).lengthSq * Real.sqrt (subVectors a b).lengthSq :=
          (Real.mul_self_sqrt (lengthSq_nonneg _)).symm
      _ < t * t := by nlinarith
  · intro h
    have := Real.sqrt_lt_sqrt (lengthSq_nonneg (subVectors a b)) h
    calc Real.sqrt (subVectors a b).lengthSq < Real.sqrt (t * t) := this
      _ = t := by rw [show t * t = t ^ 2 by ring, Real.sqrt_sq ht.le]

theorem length_eq_zero_iff (v : Vector3) : v.length = 0 ↔ v = ⟨0, 0, 0⟩ := by
  unfold length
  rw [Real.sqrt_eq_zero']
  constructor
  · intro h
    have hsq : v.lengthSq = v.x * v.x + v.y * v.y + v.z * v.z := rfl
    have hx : v.x = 0 := by nlinarith [mul_self_nonneg v.x, mul_self_nonneg v.y, mul_self_nonneg v.z]
    have hy : v.y = 0 := by nlinarith [mul_self_nonneg v.x, mul_self_nonneg v.y, mul_self_nonneg v.z]
    have hz : v.z = 0 := by nlinarith [mul_self_nonneg v.x, mul_self_nonneg v.y, mul_self_nonneg v.z]
    cases v; simp_all
  · rintro rfl
    show (0 : ℝ) * 0 + 0 * 0 + 0 * 0 ≤ 0
    norm_num

theorem length_pos_of_ne {v : Vector3} (h : v ≠ ⟨0, 0, 0⟩) : 0 < v.length := by
  rcases lt_or_eq_of_le (length_nonneg v) with h' | h'
  · exact h'
  · exact absurd ((length_eq_zero_iff v).mp h'.symm) h

theorem length_multiplyScalar (v : Vector3) (s : ℝ) :
    (v.multiplyScalar s).length = |s| * v.length := by
  unfold length multiplyScalar lengthSq
  rw [show (v.x * s) * (v.x * s) + (v.y * s) * (v.y * s) + (v.z * s) * (v.z * s)
        = s ^ 2 * (v.x * v.x + v.y * v.y + v.z * v.z) by ring]
  rw [Real.sqrt_mul (sq_nonneg s), Real.sqrt_sq_eq_abs]

theorem length_normalize {v : Vector3} (h : v ≠ ⟨0, 0, 0⟩) :
    v.normalize.length = 1 := by
  have hl := length_pos_of_ne h
  unfold normalize
  rw [length_multiplyScalar, abs_of_pos (by positivity)]
  field_simp

end Vector3

/-! ## Further vector lemmas -/

namespace Vector3

theorem subVectors_eq_zero_iff (a b : Vector3) :
    subVectors a b = (⟨0, 0, 0⟩ : Vector3) ↔ a = b := by
  cases a; cases b
  simp only [subVectors, mk.injEq]
  constructor
  · rintro ⟨h1, h2, h3⟩
    exact ⟨by linarith, by linarith, by linarith⟩
  · rintro ⟨h1, h2, h3⟩
    exact ⟨by linarith, by linarith, by linarith⟩

theorem multiplyScalar_multiplyScalar (v : Vector3) (s t : ℝ) :
    (v.multiplyScalar s).multiplyScalar t = v.multiplyScalar (s * t) := by
  cases v; simp only [multiplyScalar, mk.injEq]; refine ⟨by ring, by ring, by ring⟩

theorem length_subVectors_comm (a b : Vector3) :
    (subVectors a b).length = (subVectors b a).length := by
  cases a; cases b
  unfold length lengthSq subVectors
  ring_nf

/-- Distance from a displaced point back to the point: the length of the
displacement. -/
theorem distanceTo_subVectors_self (a w : Vector3) :
    (subVectors a w).distanceTo a = w.length := by
  cases a; cases w
  unfold distanceTo length lengthSq subVectors
  ring_nf

theorem distanceTo_addVectors_self (a w : Vector3) :
    (addVectors a w).distanceTo a = w.length := by
  cases a; cases w
  unfold distanceTo length lengthSq subVectors addVectors
  ring_nf

/-- Moving `a` by `d` along the unit vector from `b` toward `a` puts it at
distance `dist a b + d` from `b`. -/
theorem distanceTo_addVectors_along (a b : Vector3) (d : ℝ) (hab : a ≠ b)
    (hd : 0 ≤ d) :
    (addVectors a (((subVectors a b).normalize).multiplyScalar d)).distanceTo b =
      a.distanceTo b + d := by
  have hv : subVectors a b ≠ (⟨0, 0, 0⟩ : Vector3) := by
    intro h; exact hab ((subVectors_eq_zero_iff a b).mp h)
  have hL : 0 < (subVectors a b).length := length_pos_of_ne hv
  set L := (subVectors a b).length with hLdef
  have hkey : addVectors a (((subVectors a b).normalize).multiplyScalar d) =
      addVectors a ((subVectors a b).multiplyScalar (1 / L * d)) := by
    rw [normalize, multiplyScalar_multiplyScalar]
  rw [hkey]
  have hsub : subVectors (addVectors a ((subVectors a b).multiplyScalar (1 / L * d))) b
      = (subVectors a b).multiplyScalar (1 + 1 / L * d) := by
    cases a; cases b
    simp only [subVectors, addVectors, multiplyScalar, mk.injEq]
    refine ⟨by ring, by ring, by ring⟩
  show (subVectors _ b).length = _
  rw [hsub, length_multiplyScalar, abs_of_pos (by positivity)]
  show (1 + 1 / L * d) * L = L + d
  field_simp

/-- Moving `a` by `d` against the unit vector from `a` toward `b` likewise
puts it at distance `dist a b + d` from `b` (this is the butt-extension
displacement: the source subtracts the toward-the-far-endpoint direction). -/
theorem distanceTo_subVectors_along (a b : Vector3) (d : ℝ) (hab : a ≠ b)
    (hd : 0 ≤ d) :
    (subVectors a (((subVectors b a).normalize).multiplyScalar d)).distanceTo b =
      a.distanceTo b + d := by
  have hv : subVectors b a ≠ (⟨0, 0, 0⟩ : Vector3) := by
    intro h; exact hab ((subVectors_eq_zero_iff b a).mp h).symm
  have hL : 0 < (subVectors b a).length := length_pos_of_ne hv
  set L := (subVectors b a).length with hLdef
  have hkey : subVectors a (((subVectors b a).normalize).multiplyScalar d) =
      subVectors a ((subVectors b a).multiplyScalar (1 / L * d)) := by
    rw [normalize, multiplyScalar_multiplyScalar]
  rw [hkey]
  have hsub : subVectors (subVectors a ((subVectors b a).multiplyScalar (1 / L * d))) b
      = (subVectors a b).multiplyScalar (1 + 1 / L * d) := by
    cases a; cases b
    simp only [subVectors, multiplyScalar, mk.injEq]
    refine ⟨by ring, by ring, by ring⟩
  show (subVectors _ b).length = _
  rw [hsub, length_multiplyScalar, abs_of_pos (by positivity)]
  have hLL : (subVectors a b).length = L := length_subVectors_comm a b
  show (1 + 1 / L * d) * (subVectors a b).length = (subVectors a b).length + d
  rw [hLL]
  field_simp

/-- Evaluation helper: a distance whose squared value is a known square. -/
theorem distanceTo_concrete {a b : Vector3} {L : ℝ} (hL : 0 ≤ L)
    (h : (subVectors a b).lengthSq = L ^ 2) : a.distanceTo b = L := by
  unfold distanceTo length
  rw [h, Real.sqrt_sq hL]

/-- Evaluation helper: normalizing a vector of known length. -/
theorem normalize_concrete {v : Vector3} {L : ℝ} (hL : 0 < L)
    (h : v.lengthSq = L ^ 2) : v.normalize = v.multiplyScalar (1 / L) := by
  unfold normalize length
  rw [h, Real.sqrt_sq hL.le]

end Vector3

/-! ## C9: miter fallback to butt for nearly parallel walls -/

/-- C9: for a 2-wall corner joint whose angle `θ` satisfies
`|sin(θ/2)| < 0.1`, the resolver does not apply the miter formula and
instead falls back to the butt method for that wall (the miter extension is
literally the butt extension against the wall's own thickness). -/
theorem calculateMiterExtension_fallback (wall : Wall) (point : Vector3)
    (angle : ℝ) (h : |Real.sin (angle / 2)| < 0.1) :
    calculateMiterExtension wall point angle =
      calculateButtExtension wall point wall.thickness := by
  unfold calculateMiterExtension
  simp only [if_pos h]

/-- C9 witness: a zero-angle joint falls back to butt. -/
theorem calculateMiterExtension_fallback_witness :
    |Real.sin ((0 : ℝ) / 2)| < 0.1 ∧
    calculateMiterExtension ⟨"w", ⟨0, 0, 0⟩, ⟨1, 0, 0⟩, 0.375⟩ ⟨0, 0, 0⟩ 0 =
      calculateButtExtension ⟨"w", ⟨0, 0, 0⟩, ⟨1, 0, 0⟩, 0.375⟩ ⟨0, 0, 0⟩
        (Wall.thickness ⟨"w", ⟨0, 0, 0⟩, ⟨1, 0, 0⟩, 0.375⟩) :=
  have h : |Real.sin ((0 : ℝ) / 2)| < 0.1 := by
    rw [show (0 : ℝ) / 2 = 0 by norm_num, Real.sin_zero]
    norm_num
  ⟨h, calculateMiterExtension_fallback _ _ _ h⟩

/-! ## C3: the miter extension moves the junction endpoint outward -/

/-- C3: at a 2-wall corner joint whose angle `θ` satisfies
`|sin(θ/2)| ≥ 0.1`, the miter method moves the wall's endpoint sitting at
the junction strictly outward past the junction — away from the wall body,
along the wall's own axis — by exactly `(thickness/2)/tan(θ/2) + 0.01`,
leaving the opposite endpoint unchanged (the distance from the new endpoint
to the far endpoint is the original length plus that amount). -/
theorem calculateMiterExtension_outward (wall : Wall) (point : Vector3)
    (angle : ℝ)
    (hsin : ¬ |Real.sin (angle / 2)| < 0.1)
    (h0 : 0 ≤ angle) (hπ : angle ≤ Real.pi)
    (hth : 0 ≤ wall.thickness)
    (hnd : wall.start ≠ wall.«end») :
    0 < wall.thickness / 2 / Real.tan (angle / 2) + 0.01 ∧
    (wall.start.distanceTo point < 0.01 →
      calculateMiterExtension wall point angle =
        { start := Vector3.addVectors wall.start
            (((Vector3.subVectors wall.start wall.«end»).normalize).multiplyScalar
              (wall.thickness / 2 / Real.tan (angle / 2) + 0.01)),
          «end» := wall.«end», wasExtended := true } ∧
      (Vector3.addVectors wall.start
          (((Vector3.subVectors wall.start wall.«end»).normalize).multiplyScalar
            (wall.thickness / 2 / Real.tan (angle / 2) + 0.01))).distanceTo wall.«end» =
        wall.start.distanceTo wall.«end» +
          (wall.thickness / 2 / Real.tan (angle / 2) + 0.01)) ∧
    (¬ wall.start.distanceTo point < 0.01 → wall.«end».distanceTo point < 0.01 →
      calculateMiterExtension wall point angle =
        { start := wall.start,
          «end» := Vector3.addVectors wall.«end»
            (((Vector3.subVectors wall.«end» wall.start).normalize).multiplyScalar
              (wall.thickness / 2 / Real.tan (angle / 2) + 0.01)),
          wasExtended := true } ∧
      (Vector3.addVectors wall.«end»
          (((Vector3.subVectors wall.«end» wall.start).normalize).multiplyScalar
            (wall.thickness / 2 / Real.tan (angle / 2) + 0.01))).distanceTo wall.start =
        wall.«end».distanceTo wall.start +
          (wall.thickness / 2 / Real.tan (angle / 2) + 0.01)) := by
  have htan : 0 ≤ Real.tan (angle / 2) := by
    refine Real.tan_nonneg_of_nonneg_of_le_pi_div_two (by linarith) (by linarith)
  have hd : 0 < wall.thickness / 2 / Real.tan (angle / 2) + 0.01 := by
    have : 0 ≤ wall.thickness / 2 / Real.tan (angle / 2) :=
      div_nonneg (by linarith) htan
    linarith
  refine ⟨hd, ?_, ?_⟩
  · intro hstart
    constructor
    · unfold calculateMiterExtension
      simp only [if_neg hsin, if_pos hstart]
    · exact Vector3.distanceTo_addVectors_along wall.start wall.«end» _ hnd hd.le
  · intro hstart hend
    constructor
    · unfold calculateMiterExtension
      simp only [if_neg hsin, if_neg hstart, if_pos hend]
    · exact Vector3.distanceTo_addVectors_along wall.«end» wall.start _ hnd.symm hd.le

/-- C3 witness: two walls of thickness 0.375 meeting at 90° — the shared
endpoint moves outward past the junction by
`(0.375/2)/tan(45°) + 0.01 = 0.1975`. -/
theorem calculateMiterExtension_outward_witness :
    (¬ |Real.sin (Real.pi / 2 / 2)| < 0.1) ∧
    calculateMiterExtension ⟨"w1", ⟨0, 0, 0⟩, ⟨1, 0, 0⟩, 0.375⟩ ⟨0, 0, 0⟩
        (Real.pi / 2) =
      { start := ⟨-0.1975, 0, 0⟩, «end» := ⟨1, 0, 0⟩, wasExtended := true } := by
  have hsqrt2 : (1 : ℝ) ≤ Real.sqrt 2 := by
    rw [show (1 : ℝ) = Real.sqrt 1 by rw [Real.sqrt_one]]
    exact Real.sqrt_le_sqrt (by norm_num)
  have hsin : ¬ |Real.sin (Real.pi / 2 / 2)| < 0.1 := by
    rw [show Real.pi / 2 / 2 = Real.pi / 4 by ring, Real.sin_pi_div_four]
    rw [abs_of_nonneg (by positivity)]
    intro h
    nlinarith
  have hth : (0 : ℝ) ≤ (⟨"w1", ⟨0, 0, 0⟩, ⟨1, 0, 0⟩, 0.375⟩ : Wall).thickness := by
    norm_num
  have hnd : (⟨0, 0, 0⟩ : Vector3) ≠ (⟨1, 0, 0⟩ : Vector3) := by
    intro h
    have hx := congrArg Vector3.x h
    norm_num at hx
  have hmain := calculateMiterExtension_outward
    ⟨"w1", ⟨0, 0, 0⟩, ⟨1, 0, 0⟩, 0.375⟩ ⟨0, 0, 0⟩ (Real.pi / 2)
    hsin (by positivity) (by linarith [Real.pi_pos]) hth hnd
  have hstart : (Vector3.mk 0 0 0).distanceTo ⟨0, 0, 0⟩ < 0.01 := by
    rw [Vector3.distanceTo_self]; norm_num
  obtain ⟨-, hcase, -⟩ := hmain
  obtain ⟨heq, -⟩ := hcase hstart
  refine ⟨hsin, ?_⟩
  have htan : Real.tan (Real.pi / 2 / 2) = 1 := by
    rw [show Real.pi / 2 / 2 = Real.pi / 4 by ring, Real.tan_pi_div_four]
  have hnorm : (Vector3.subVectors ⟨0, 0, 0⟩ ⟨1, 0, 0⟩).normalize =
      Vector3.multiplyScalar ⟨-1, 0, 0⟩ (1 / 1) := by
    have hsub : Vector3.subVectors ⟨0, 0, 0⟩ ⟨1, 0, 0⟩ = (⟨-1, 0, 0⟩ : Vector3) := by
      simp [Vector3.subVectors]
    rw [hsub]
    exact Vector3.normalize_concrete (by norm_num)
      (by norm_num [Vector3.lengthSq])
  rw [heq, hnorm, htan]
  simp only [Vector3.multiplyScalar, Vector3.addVectors, ExtensionResult.mk.injEq,
    Vector3.mk.injEq]
  norm_num

/-! ## C4: direction of the butt extension -/

/-- C4 counterexample: for the unit wall from the origin to `(1,0,0)` butted
at its start against a wall of thickness 0.5, the new start lies at distance
1.26 from the far endpoint — strictly farther than the original length 1,
not strictly nearer as claimed (the source comment says the endpoint is
pulled back into the wall body, but `newStart = start - wallDir * dist` with
`wallDir` pointing toward the far endpoint moves it outward). -/
theorem calculateButtExtension_cex :
    ((calculateButtExtension ⟨"b", ⟨0, 0, 0⟩, ⟨1, 0, 0⟩, 0.5⟩ ⟨0, 0, 0⟩
        0.5).start).distanceTo ⟨1, 0, 0⟩ = 1.26 ∧
    (⟨0, 0, 0⟩ : Vector3).distanceTo ⟨1, 0, 0⟩ = 1 ∧
    ¬ ((calculateButtExtension ⟨"b", ⟨0, 0, 0⟩, ⟨1, 0, 0⟩, 0.5⟩ ⟨0, 0, 0⟩
        0.5).start).distanceTo ⟨1, 0, 0⟩ <
      (⟨0, 0, 0⟩ : Vector3).distanceTo ⟨1, 0, 0⟩ := by
  have hstart : (Vector3.mk 0 0 0).distanceTo ⟨0, 0, 0⟩ < 0.01 := by
    rw [Vector3.distanceTo_self]; norm_num
  have hext : (calculateButtExtension ⟨"b", ⟨0, 0, 0⟩, ⟨1, 0, 0⟩, 0.5⟩ ⟨0, 0, 0⟩
      0.5).start = ⟨-0.26, 0, 0⟩ := by
    unfold calculateButtExtension
    rw [if_pos hstart]
    have hnorm : (Vector3.subVectors ⟨1, 0, 0⟩ ⟨0, 0, 0⟩).normalize =
        Vector3.multiplyScalar ⟨1, 0, 0⟩ (1 / 1) := by
      have hsub : Vector3.subVectors ⟨1, 0, 0⟩ ⟨0, 0, 0⟩ = (⟨1, 0, 0⟩ : Vector3) := by
        simp [Vector3.subVectors]
      rw [hsub]
      exact Vector3.normalize_concrete (by norm_num) (by norm_num [Vector3.lengthSq])
    show Vector3.subVectors ⟨0, 0, 0⟩ _ = _
    rw [hnorm]
    simp only [Vector3.multiplyScalar, Vector3.subVectors, Vector3.mk.injEq]
    norm_num
  have h1 : ((calculateButtExtension ⟨"b", ⟨0, 0, 0⟩, ⟨1, 0, 0⟩, 0.5⟩ ⟨0, 0, 0⟩
      0.5).start).distanceTo ⟨1, 0, 0⟩ = 1.26 := by
    rw [hext]
    exact Vector3.distanceTo_concrete (by norm_num)
      (by norm_num [Vector3.subVectors, Vector3.lengthSq])
  have h2 : (⟨0, 0, 0⟩ : Vector3).distanceTo ⟨1, 0, 0⟩ = 1 :=
    Vector3.distanceTo_concrete (by norm_num)
      (by norm_num [Vector3.subVectors, Vector3.lengthSq])
  refine ⟨h1, h2, ?_⟩
  rw [h1, h2]
  norm_num

/-- C4 amended: the butt extension displaces the wall's junction endpoint
along the wall's own axis strictly *away from* the far endpoint (outward
past the junction) by `(intersecting thickness)/2 + 0.01`: the distance from
the new endpoint to the far endpoint is the original length plus that
amount, hence strictly larger — never smaller. -/
theorem calculateButtExtension_outward (wall : Wall) (point : Vector3) (t : ℝ)
    (ht : 0 ≤ t) (hnd : wall.start ≠ wall.«end») :
    0 < t / 2 + 0.01 ∧
    (wall.start.distanceTo point < 0.01 →
      calculateButtExtension wall point t =
        { start := Vector3.subVectors wall.start
            (((Vector3.subVectors wall.«end» wall.start).normalize).multiplyScalar
              (t / 2 + 0.01)),
          «end» := wall.«end», wasExtended := true } ∧
      (Vector3.subVectors wall.start
          (((Vector3.subVectors wall.«end» wall.start).normalize).multiplyScalar
            (t / 2 + 0.01))).distanceTo wall.«end» =
        wall.start.distanceTo wall.«end» + (t / 2 + 0.01) ∧
      wall.start.distanceTo wall.«end» <
        (Vector3.subVectors wall.start
          (((Vector3.subVectors wall.«end» wall.start).normalize).multiplyScalar
            (t / 2 + 0.01))).distanceTo wall.«end») ∧
    (¬ wall.start.distanceTo point < 0.01 → wall.«end».distanceTo point < 0.01 →
      calculateButtExtension wall point t =
        { start := wall.start,
          «end» := Vector3.subVectors wall.«end»
            (((Vector3.subVectors wall.start wall.«end»).normalize).multiplyScalar
              (t / 2 + 0.01)),
          wasExtended := true } ∧
      (Vector3.subVectors wall.«end»
          (((Vector3.subVectors wall.start wall.«end»).normalize).multiplyScalar
            (t / 2 + 0.01))).distanceTo wall.start =
        wall.«end».distanceTo wall.start + (t / 2 + 0.01) ∧
      wall.«end».distanceTo wall.start <
        (Vector3.subVectors wall.«end»
          (((Vector3.subVectors wall.start wall.«end»).normalize).multiplyScalar
            (t / 2 + 0.01))).distanceTo wall.start) := by
  have hd : (0 : ℝ) < t / 2 + 0.01 := by linarith
  refine ⟨hd, ?_, ?_⟩
  · intro hstart
    have hdist := Vector3.distanceTo_subVectors_along wall.start wall.«end»
      (t / 2 + 0.01) hnd hd.le
    refine ⟨?_, hdist, ?_⟩
    · unfold calculateButtExtension
      rw [if_pos hstart]
    · rw [hdist]; linarith
  · intro hstart hend
    have hdist := Vector3.distanceTo_subVectors_along wall.«end» wall.start
      (t / 2 + 0.01) hnd.symm hd.le
    refine ⟨?_, hdist, ?_⟩
    · unfold calculateButtExtension
      rw [if_neg hstart, if_pos hend]
    · rw [hdist]; linarith

/-- C4 witness: butting the wall from the origin to `(0,0,1)` against a
through wall of thickness 0.5 moves its start to distance `1 + 0.26` from
the far endpoint. -/
theorem calculateButtExtension_outward_witness :
    (0 : ℝ) ≤ 0.5 ∧ (⟨0, 0, 0⟩ : Vector3) ≠ (⟨0, 0, 1⟩ : Vector3) ∧
    (Vector3.subVectors ⟨0, 0, 0⟩
        (((Vector3.subVectors ⟨0, 0, 1⟩ ⟨0, 0, 0⟩).normalize).multiplyScalar
          (0.5 / 2 + 0.01))).distanceTo ⟨0, 0, 1⟩ =
      (⟨0, 0, 0⟩ : Vector3).distanceTo ⟨0, 0, 1⟩ + (0.5 / 2 + 0.01) := by
  have ht : (0 : ℝ) ≤ 0.5 := by norm_num
  have hnd : (⟨0, 0, 0⟩ : Vector3) ≠ (⟨0, 0, 1⟩ : Vector3) := by
    intro h
    have hz := congrArg Vector3.z h
    norm_num at hz
  have hstart : (Vector3.mk 0 0 0).distanceTo ⟨0, 0, 0⟩ < 0.01 := by
    rw [Vector3.distanceTo_self]; norm_num
  have hmain := calculateButtExtension_outward ⟨"c", ⟨0, 0, 0⟩, ⟨0, 0, 1⟩, 0.5⟩
    ⟨0, 0, 0⟩ 0.5 ht hnd
  obtain ⟨-, hcase, -⟩ := hmain
  obtain ⟨-, hdist, -⟩ := hcase hstart
  exact ⟨ht, hnd, hdist⟩

/-! ## C7: union failures are dropped, the fold continues -/

/-- C7: in the network union fold, a step whose external union returns no
result leaves the running unified geometry at its last successful value and
drops the failed operand (the fold continues, nothing is retried); hence in
a 5-wall network where exactly the third wall's pairwise union fails, the
result is the union of the other four walls' volumes. -/
theorem unionWallGeometries_drops_failures :
    (∀ (G : Type) (performBoolean : G → G → Option G) (unified g : G),
      performBoolean unified g = none →
      unionStep performBoolean unified g = unified) ∧
    (∀ (G : Type) (u : G → G → G) (performBoolean : G → G → Option G)
      (g1 g2 g3 g4 g5 : G),
      (∀ a, performBoolean a g3 = none) →
      (∀ a b, b ≠ g3 → performBoolean a b = some (u a b)) →
      g2 ≠ g3 → g4 ≠ g3 → g5 ≠ g3 →
      unionWallGeometries performBoolean [g1, g2, g3, g4, g5] =
        some (u (u (u g1 g2) g4) g5)) := by
  constructor
  · intro G performBoolean unified g h
    unfold unionStep
    rw [h]
  · intro G u performBoolean g1 g2 g3 g4 g5 hfail hok h2 h4 h5
    show some (List.foldl _ _ _) = _
    simp only [List.foldl]
    rw [show unionStep performBoolean g1 g2 = u g1 g2 by
      unfold unionStep; rw [hok g1 g2 h2]]
    rw [show unionStep performBoolean (u g1 g2) g3 = u g1 g2 by
      unfold unionStep; rw [hfail (u g1 g2)]]
    rw [show unionStep performBoolean (u g1 g2) g4 = u (u g1 g2) g4 by
      unfold unionStep; rw [hok _ g4 h4]]
    rw [show unionStep performBoolean (u (u g1 g2) g4) g5 = u (u (u g1 g2) g4) g5 by
      unfold unionStep; rw [hok _ g5 h5]]

/-- C7 witness: a concrete failing operator over `ℕ` with `u = (+)`. -/
theorem unionWallGeometries_drops_failures_witness :
    unionWallGeometries (fun a b => if b = 3 then none else some (a + b))
      [1, 2, 3, 4, 5] = some 12 := by
  have h := unionWallGeometries_drops_failures.2 ℕ (· + ·)
    (fun a b => if b = 3 then none else some (a + b)) 1 2 3 4 5
    (fun a => by simp) (fun a b hb => by simp [hb]) (by decide) (by decide) (by decide)
  rw [h]

/-! ## C2: junction classification -/

/-- C2: `detectJointType` is determined by the number of walls touching the
point and, for two walls, by the angle between their away-pointing
directions (dot product clamped to `[-1,1]` before `arccos`): two walls
within 0.1 rad of `π` give `NONE`, two walls otherwise give a corner
L-joint, three give a T-joint, four a cross X-joint, more than four give
`OBLIQUE`; and a junction classified `NONE` causes no endpoint modification
in the resolver (`processConnection` returns its input map unchanged). -/
theorem detectJointType_spec (walls : List Wall) (point : Vector3)
    (tolerance : ℝ) :
    (∀ w1 w2,
      (walls.filter fun w =>
        decide (w.start.distanceTo point < tolerance ∨
          w.«end».distanceTo point < tolerance)) = [w1, w2] →
      ((|Real.arccos (max (-1) (min 1
          ((getDirectionFromPoint w1 point).dot (getDirectionFromPoint w2 point)))) -
          Real.pi| < 0.1 →
        detectJointType walls point tolerance = JointType.NONE) ∧
       (¬ |Real.arccos (max (-1) (min 1
          ((getDirectionFromPoint w1 point).dot (getDirectionFromPoint w2 point)))) -
          Real.pi| < 0.1 →
        detectJointType walls point tolerance = JointType.L_JOINT))) ∧
    ((walls.filter fun w =>
        decide (w.start.distanceTo point < tolerance ∨
          w.«end».distanceTo point < tolerance)).length = 3 →
      detectJointType walls point tolerance = JointType.T_JOINT) ∧
    ((walls.filter fun w =>
        decide (w.start.distanceTo point < tolerance ∨
          w.«end».distanceTo point < tolerance)).length = 4 →
      detectJointType walls point tolerance = JointType.X_JOINT) ∧
    (4 < (walls.filter fun w =>
        decide (w.start.distanceTo point < tolerance ∨
          w.«end».distanceTo point < tolerance)).length →
      detectJointType walls point tolerance = JointType.OBLIQUE) ∧
    (∀ (jointMethod : WallJointMethod) (m : ExtMap) (connection : ConnectionPoint),
      connection.jointType = JointType.NONE →
      processConnection jointMethod m connection = m) := by
  refine ⟨?_, ?_, ?_, ?_, ?_⟩
  · intro w1 w2 hf
    constructor
    · intro hangle
      unfold detectJointType
      rw [hf]
      exact if_pos hangle
    · intro hangle
      unfold detectJointType
      rw [hf]
      exact if_neg hangle
  · intro hlen
    rcases hf : walls.filter fun w =>
        decide (w.start.distanceTo point < tolerance ∨
          w.«end».distanceTo point < tolerance) with
      - | ⟨a, - | ⟨b, - | ⟨c, - | ⟨d, rest⟩⟩⟩⟩ <;>
      rw [hf] at hlen <;> simp at hlen
    unfold detectJointType
    rw [hf]
  · intro hlen
    rcases hf : walls.filter fun w =>
        decide (w.start.distanceTo point < tolerance ∨
          w.«end».distanceTo point < tolerance) with
      - | ⟨a, - | ⟨b, - | ⟨c, - | ⟨d, - | ⟨e, rest⟩⟩⟩⟩⟩ <;>
      rw [hf] at hlen <;> simp at hlen
    unfold detectJointType
    rw [hf]
  · intro hlen
    rcases hf : walls.filter fun w =>
        decide (w.start.distanceTo point < tolerance ∨
          w.«end».distanceTo point < tolerance) with
      - | ⟨a, - | ⟨b, - | ⟨c, - | ⟨d, - | ⟨e, rest⟩⟩⟩⟩⟩ <;>
      rw [hf] at hlen <;> simp at hlen
    unfold detectJointType
    rw [hf]
  · intro jointMethod m connection h
    unfold processConnection
    rw [if_pos h]

/-- C2 witness: two perpendicular walls at the origin classify as a corner
L-joint, and a `NONE` connection leaves the resolver map unchanged. -/
theorem detectJointType_spec_witness :
    detectJointType [⟨"w1", ⟨0, 0, 0⟩, ⟨1, 0, 0⟩, 0.375⟩,
        ⟨"w2", ⟨0, 0, 0⟩, ⟨0, 0, 1⟩, 0.375⟩] ⟨0, 0, 0⟩ 0.01 =
      JointType.L_JOINT ∧
    processConnection WallJointMethod.auto (fun _ => none)
        ⟨⟨0, 0, 0⟩, [], JointType.NONE⟩ = (fun _ => none) := by
  have hspec := detectJointType_spec
    [⟨"w1", ⟨0, 0, 0⟩, ⟨1, 0, 0⟩, 0.375⟩, ⟨"w2", ⟨0, 0, 0⟩, ⟨0, 0, 1⟩, 0.375⟩]
    (⟨0, 0, 0⟩ : Vector3) 0.01
  have hd0 : (Vector3.mk 0 0 0).distanceTo ⟨0, 0, 0⟩ < 0.01 := by
    rw [Vector3.distanceTo_self]; norm_num
  have hf : ([⟨"w1", ⟨0, 0, 0⟩, ⟨1, 0, 0⟩, 0.375⟩,
      ⟨"w2", ⟨0, 0, 0⟩, ⟨0, 0, 1⟩, 0.375⟩] : List Wall).filter
        (fun w => decide ((w.start.distanceTo ⟨0, 0, 0⟩ < 0.01) ∨
          (w.«end».distanceTo ⟨0, 0, 0⟩ < 0.01))) =
      [⟨"w1", ⟨0, 0, 0⟩, ⟨1, 0, 0⟩, 0.375⟩, ⟨"w2", ⟨0, 0, 0⟩, ⟨0, 0, 1⟩, 0.375⟩] := by
    simp only [List.filter_cons, List.filter_nil, decide_eq_true_eq]
    rw [if_pos (Or.inl hd0), if_pos (Or.inl hd0)]
  have hdir1 : getDirectionFromPoint ⟨"w1", ⟨0, 0, 0⟩, ⟨1, 0, 0⟩, 0.375⟩ ⟨0, 0, 0⟩ =
      Vector3.multiplyScalar ⟨1, 0, 0⟩ (1 / 1) := by
    unfold getDirectionFromPoint
    rw [if_pos hd0]
    have hsub : Vector3.subVectors ⟨1, 0, 0⟩ ⟨0, 0, 0⟩ = (⟨1, 0, 0⟩ : Vector3) := by
      simp [Vector3.subVectors]
    rw [hsub]
    exact Vector3.normalize_concrete (by norm_num) (by norm_num [Vector3.lengthSq])
  have hdir2 : getDirectionFromPoint ⟨"w2", ⟨0, 0, 0⟩, ⟨0, 0, 1⟩, 0.375⟩ ⟨0, 0, 0⟩ =
      Vector3.multiplyScalar ⟨0, 0, 1⟩ (1 / 1) := by
    unfold getDirectionFromPoint
    rw [if_pos hd0]
    have hsub : Vector3.subVectors ⟨0, 0, 1⟩ ⟨0, 0, 0⟩ = (⟨0, 0, 1⟩ : Vector3) := by
      simp [Vector3.subVectors]
    rw [hsub]
    exact Vector3.normalize_concrete (by norm_num) (by norm_num [Vector3.lengthSq])
  have hangle : ¬ |Real.arccos (max (-1) (min 1
      ((getDirectionFromPoint ⟨"w1", ⟨0, 0, 0⟩, ⟨1, 0, 0⟩, 0.375⟩ ⟨0, 0, 0⟩).dot
        (getDirectionFromPoint ⟨"w2", ⟨0, 0, 0⟩, ⟨0, 0, 1⟩, 0.375⟩ ⟨0, 0, 0⟩)))) -
      Real.pi| < 0.1 := by
    rw [hdir1, hdir2]
    have hdot : (Vector3.multiplyScalar ⟨1, 0, 0⟩ (1 / 1)).dot
        (Vector3.multiplyScalar ⟨0, 0, 1⟩ (1 / 1)) = 0 := by
      norm_num [Vector3.dot, Vector3.multiplyScalar]
    rw [hdot]
    rw [show max (-1 : ℝ) (min 1 0) = 0 by norm_num, Real.arccos_zero]
    have hpi := Real.pi_gt_three
    rw [abs_of_nonpos (by linarith)]
    intro h
    linarith
  refine ⟨(hspec.1 _ _ hf).2 hangle, hspec.2.2.2.2 _ _ _ rfl⟩

/-! ## Map and update lemmas for the resolver -/

theorem ExtMap.set_self (m : ExtMap) (id : String) (g : ExtendedWallGeometry) :
    m.set id g id = some g := by
  unfold ExtMap.set
  rw [if_pos rfl]

theorem ExtMap.set_ne (m : ExtMap) (id x : String) (g : ExtendedWallGeometry)
    (h : x ≠ id) : m.set id g x = m x := by
  unfold ExtMap.set
  rw [if_neg h]

theorem buttUpdate_apply_ne (point : Vector3) (t : ℝ) (m : ExtMap) (wall : Wall)
    (x : String) (h : x ≠ wall.id) : buttUpdate point t m wall x = m x := by
  cases hm : m wall.id with
  | none => simp only [buttUpdate, hm]
  | some existing =>
    simp only [buttUpdate, hm]
    by_cases hs : wall.start.distanceTo point < 0.01
    · rw [if_pos hs]; exact ExtMap.set_ne m wall.id x _ h
    · rw [if_neg hs]; exact ExtMap.set_ne m wall.id x _ h

theorem miterUpdate_apply_ne (point : Vector3) (angle : ℝ) (m : ExtMap)
    (wall : Wall) (x : String) (h : x ≠ wall.id) :
    miterUpdate point angle m wall x = m x := by
  cases hm : m wall.id with
  | none => simp only [miterUpdate, hm]
  | some existing =>
    simp only [miterUpdate, hm]
    by_cases hs : wall.start.distanceTo point < 0.01
    · rw [if_pos hs]; exact ExtMap.set_ne m wall.id x _ h
    · rw [if_neg hs]
      by_cases he : wall.«end».distanceTo point < 0.01
      · rw [if_pos he]; exact ExtMap.set_ne m wall.id x _ h
      · rw [if_neg he]

theorem foldl_buttUpdate_not_mem (point : Vector3) (t : ℝ) (l : List Wall)
    (m : ExtMap) (x : String) (h : x ∉ l.map Wall.id) :
    (l.foldl (buttUpdate point t) m) x = m x := by
  induction l generalizing m with
  | nil => rfl
  | cons a l ih =>
    simp only [List.map_cons, List.mem_cons, not_or] at h
    show (l.foldl (buttUpdate point t) (buttUpdate point t m a)) x = m x
    rw [ih _ h.2, buttUpdate_apply_ne _ _ _ _ _ h.1]

theorem foldl_miterUpdate_not_mem (point : Vector3) (angle : ℝ) (l : List Wall)
    (m : ExtMap) (x : String) (h : x ∉ l.map Wall.id) :
    (l.foldl (miterUpdate point angle) m) x = m x := by
  induction l generalizing m with
  | nil => rfl
  | cons a l ih =>
    simp only [List.map_cons, List.mem_cons, not_or] at h
    show (l.foldl (miterUpdate point angle) (miterUpdate point angle m a)) x = m x
    rw [ih _ h.2, miterUpdate_apply_ne _ _ _ _ _ h.1]

/-- The start-branch value of `calculateButtExtension`. -/
theorem calculateButtExtension_eq_start (wall : Wall) (point : Vector3) (t : ℝ)
    (hs : wall.start.distanceTo point < 0.01) :
    calculateButtExtension wall point t =
      { start := Vector3.subVectors wall.start
          (((Vector3.subVectors wall.«end» wall.start).normalize).multiplyScalar
            (t / 2 + 0.01)),
        «end» := wall.«end», wasExtended := true } := by
  unfold calculateButtExtension
  rw [if_pos hs]

/-- The end-branch value of `calculateButtExtension`. -/
theorem calculateButtExtension_eq_end (wall : Wall) (point : Vector3) (t : ℝ)
    (hs : ¬ wall.start.distanceTo point < 0.01)
    (he : wall.«end».distanceTo point < 0.01) :
    calculateButtExtension wall point t =
      { start := wall.start,
        «end» := Vector3.subVectors wall.«end»
          (((Vector3.subVectors wall.start wall.«end»).normalize).multiplyScalar
            (t / 2 + 0.01)),
        wasExtended := true } := by
  unfold calculateButtExtension
  rw [if_neg hs, if_pos he]

/-- Evaluation of `buttUpdate` at the updated key. -/
theorem buttUpdate_apply_self (point : Vector3) (t : ℝ) (m : ExtMap) (wall : Wall)
    (g : ExtendedWallGeometry) (hg : m wall.id = some g) :
    buttUpdate point t m wall wall.id =
      some (if wall.start.distanceTo point < 0.01 then
        { g with extendedStart := (calculateButtExtension wall point t).start,
                 wasExtended := (calculateButtExtension wall point t).wasExtended ||
                   g.wasExtended }
      else
        { g with extendedEnd := (calculateButtExtension wall point t).«end»,
                 wasExtended := (calculateButtExtension wall point t).wasExtended ||
                   g.wasExtended }) := by
  by_cases hs : wall.start.distanceTo point < 0.01
  · simp only [buttUpdate, hg]
    rw [if_pos hs, if_pos hs, ExtMap.set_self]
  · simp only [buttUpdate, hg]
    rw [if_neg hs, if_neg hs, ExtMap.set_self]

theorem buttUpdate_congr (point : Vector3) (t : ℝ) (m m' : ExtMap) (wall : Wall)
    (h : m wall.id = m' wall.id) :
    buttUpdate point t m wall wall.id = buttUpdate point t m' wall wall.id := by
  cases hm : m' wall.id with
  | none => simp only [buttUpdate, h, hm]
  | some existing =>
    rw [buttUpdate_apply_self point t m wall existing (h.trans hm),
      buttUpdate_apply_self point t m' wall existing hm]

/-- In a fold of `buttUpdate`s over walls with distinct ids, the value at a
member wall's key is that wall's own update of the initial map. -/
theorem foldl_buttUpdate_apply (point : Vector3) (t : ℝ) (l : List Wall)
    (m : ExtMap) (w : Wall) (hw : w ∈ l) (hnodup : (l.map Wall.id).Nodup) :
    (l.foldl (buttUpdate point t) m) w.id = buttUpdate point t m w w.id := by
  induction l generalizing m with
  | nil => cases hw
  | cons a l ih =>
    simp only [List.map_cons, List.nodup_cons] at hnodup
    rcases List.mem_cons.mp hw with rfl | hwl
    · show (l.foldl (buttUpdate point t) (buttUpdate point t m w)) w.id = _
      exact foldl_buttUpdate_not_mem _ _ _ _ _ hnodup.1
    · have hne : w.id ≠ a.id := by
        intro h
        exact hnodup.1 (h ▸ List.mem_map_of_mem Wall.id hwl)
      show (l.foldl (buttUpdate point t) (buttUpdate point t m a)) w.id = _
      rw [ih _ hwl hnodup.2]
      exact buttUpdate_congr _ _ _ _ _ (buttUpdate_apply_ne _ _ _ _ _ hne)

/-- The value written by `buttUpdate` when the wall's start sits at the
connection. -/
theorem buttUpdate_start (point : Vector3) (t : ℝ) (m : ExtMap) (wall : Wall)
    (g : ExtendedWallGeometry) (hg : m wall.id = some g)
    (hs : wall.start.distanceTo point < 0.01) :
    buttUpdate point t m wall wall.id = some { g with
      extendedStart := Vector3.subVectors wall.start
        (((Vector3.subVectors wall.«end» wall.start).normalize).multiplyScalar
          (t / 2 + 0.01)),
      wasExtended := true } := by
  rw [buttUpdate_apply_self point t m wall g hg, if_pos hs,
    calculateButtExtension_eq_start wall point t hs]
  rfl

/-- The value written by `buttUpdate` when the start is away from the
connection but the end sits at it. -/
theorem buttUpdate_end (point : Vector3) (t : ℝ) (m : ExtMap) (wall : Wall)
    (g : ExtendedWallGeometry) (hg : m wall.id = some g)
    (hs : ¬ wall.start.distanceTo point < 0.01)
    (he : wall.«end».distanceTo point < 0.01) :
    buttUpdate point t m wall wall.id = some { g with
      extendedEnd := Vector3.subVectors wall.«end»
        (((Vector3.subVectors wall.start wall.«end»).normalize).multiplyScalar
          (t / 2 + 0.01)),
      wasExtended := true } := by
  rw [buttUpdate_apply_self point t m wall g hg, if_neg hs,
    calculateButtExtension_eq_end wall point t hs he]
  rfl

/-! ## C5: through-wall designation at butt junctions -/

/-- `determineExtendingWall` returns the earliest wall of maximal
endpoint-to-endpoint length: it is a member, no wall is strictly longer,
and every wall listed before it is strictly shorter. -/
theorem determineExtendingWall_spec (w0 : Wall) (rest : List Wall) :
    determineExtendingWall (w0 :: rest) ∈ w0 :: rest ∧
    (∀ w ∈ w0 :: rest, w.start.distanceTo w.«end» ≤
      (determineExtendingWall (w0 :: rest)).start.distanceTo
        (determineExtendingWall (w0 :: rest)).«end») ∧
    ∃ l1 l2, w0 :: rest = l1 ++ determineExtendingWall (w0 :: rest) :: l2 ∧
      ∀ w ∈ l1, w.start.distanceTo w.«end» <
        (determineExtendingWall (w0 :: rest)).start.distanceTo
          (determineExtendingWall (w0 :: rest)).«end» := by
  induction rest generalizing w0 with
  | nil =>
    have h : determineExtendingWall [w0] = w0 := rfl
    rw [h]
    refine ⟨List.mem_singleton_self w0, ?_, [], [], rfl, by simp⟩
    intro w hw
    rw [List.mem_singleton.mp hw]
  | cons r rest ih =>
    by_cases hc : r.start.distanceTo r.«end» > w0.start.distanceTo w0.«end»
    · -- the fold replaces the candidate with `r`
      have hfold : determineExtendingWall (w0 :: r :: rest) =
          determineExtendingWall (r :: rest) := by
        show List.foldl _ (if r.start.distanceTo r.«end» >
          w0.start.distanceTo w0.«end» then r else w0) rest = _
        rw [if_pos hc]
        rfl
      obtain ⟨hmem, hbound, l1', l2', hsplit, hstrict⟩ := ih r
      rw [hfold]
      refine ⟨List.mem_cons_of_mem _ hmem, ?_, ?_⟩
      · intro w hw
        rcases List.mem_cons.mp hw with hwe | hw'
        · exact hwe ▸ le_trans hc.le (hbound r (List.mem_cons_self _ _))
        · exact hbound w hw'
      · refine ⟨w0 :: l1', l2', ?_, ?_⟩
        · rw [List.cons_append, ← hsplit]
        · intro w hw
          rcases List.mem_cons.mp hw with hwe | hw'
          · exact hwe ▸ lt_of_lt_of_le hc (hbound r (List.mem_cons_self _ _))
          · exact hstrict w hw'
    · -- the candidate `w0` survives the comparison with `r`
      have hfold : determineExtendingWall (w0 :: r :: rest) =
          determineExtendingWall (w0 :: rest) := by
        show List.foldl _ (if r.start.distanceTo r.«end» >
          w0.start.distanceTo w0.«end» then r else w0) rest = _
        rw [if_neg hc]
        rfl
      obtain ⟨hmem, hbound, l1', l2', hsplit, hstrict⟩ := ih w0
      rw [hfold]
      have hrle : r.start.distanceTo r.«end» ≤ w0.start.distanceTo w0.«end» :=
        le_of_not_lt hc
      refine ⟨?_, ?_, ?_⟩
      · rcases List.mem_cons.mp hmem with he | he
        · rw [he]; exact List.mem_cons_self _ _
        · exact List.mem_cons_of_mem _ (List.mem_cons_of_mem _ he)
      · intro w hw
        rcases List.mem_cons.mp hw with hwe | hw'
        · exact hwe ▸ hbound w0 (List.mem_cons_self _ _)
        · rcases List.mem_cons.mp hw' with hwe | hw''
          · exact hwe ▸ le_trans hrle (hbound w0 (List.mem_cons_self _ _))
          · exact hbound w (List.mem_cons_of_mem _ hw'')
      · cases l1' with
        | nil =>
          rw [List.nil_append] at hsplit
          have h0 : w0 = determineExtendingWall (w0 :: rest) := by
            have := hsplit
            simp only [List.cons.injEq] at this
            exact this.1
          refine ⟨[], r :: rest, ?_, by simp⟩
          rw [List.nil_append, ← h0]
        | cons p1 l1'' =>
          rw [List.cons_append] at hsplit
          have hinj : w0 = p1 ∧ rest = l1'' ++ determineExtendingWall (w0 :: rest) :: l2' := by
            have := hsplit
            simp only [List.cons.injEq] at this
            exact this
          have h0strict : w0.start.distanceTo w0.«end» <
              (determineExtendingWall (w0 :: rest)).start.distanceTo
                (determineExtendingWall (w0 :: rest)).«end» := by
            apply hstrict
            rw [← hinj.1] at *
            exact hinj.1 ▸ List.mem_cons_self _ _
          refine ⟨w0 :: r :: l1'', l2', ?_, ?_⟩
          · rw [show (w0 :: r :: l1'') ++ determineExtendingWall (w0 :: rest) :: l2' =
              w0 :: r :: (l1'' ++ determineExtendingWall (w0 :: rest) :: l2') from rfl,
              ← hinj.2]
          · intro w hw
            rcases List.mem_cons.mp hw with hwe | hw'
            · exact hwe ▸ h0strict
            · rcases List.mem_cons.mp hw' with hwe | hw''
              · exact hwe ▸ lt_of_le_of_lt hrle h0strict
              · apply hstrict
                rw [← hinj.1]
                exact List.mem_cons_of_mem _ hw''

/-- C5: at a junction resolved by the butt method, exactly one wall — the
earliest wall of greatest endpoint-to-endpoint length — is designated the
through wall and has neither endpoint modified there (only its
`wasExtended` flag is forced to `false`); every other wall at the junction
has its junction endpoint displaced along its own axis by exactly
`(through thickness)/2 + 0.01`. -/
theorem buttConnection_through (m : ExtMap) (point : Vector3) (w0 : Wall)
    (rest : List Wall)
    (hnodup : ((w0 :: rest).map Wall.id).Nodup)
    (hth : 0 ≤ (determineExtendingWall (w0 :: rest)).thickness) :
    (determineExtendingWall (w0 :: rest) ∈ w0 :: rest ∧
      (∀ w ∈ w0 :: rest, w.start.distanceTo w.«end» ≤
        (determineExtendingWall (w0 :: rest)).start.distanceTo
          (determineExtendingWall (w0 :: rest)).«end») ∧
      ∃ l1 l2, w0 :: rest = l1 ++ determineExtendingWall (w0 :: rest) :: l2 ∧
        ∀ w ∈ l1, w.start.distanceTo w.«end» <
          (determineExtendingWall (w0 :: rest)).start.distanceTo
            (determineExtendingWall (w0 :: rest)).«end») ∧
    (∀ g, m (determineExtendingWall (w0 :: rest)).id = some g →
      buttConnection m point (w0 :: rest) (determineExtendingWall (w0 :: rest)).id =
        some { g with wasExtended := false }) ∧
    (∀ w ∈ w0 :: rest, w.id ≠ (determineExtendingWall (w0 :: rest)).id →
      ∀ g, m w.id = some g →
      (w.start.distanceTo point < 0.01 →
        buttConnection m point (w0 :: rest) w.id = some { g with
          extendedStart := Vector3.subVectors w.start
            (((Vector3.subVectors w.«end» w.start).normalize).multiplyScalar
              ((determineExtendingWall (w0 :: rest)).thickness / 2 + 0.01)),
          wasExtended := true } ∧
        (w.start ≠ w.«end» →
          (Vector3.subVectors w.start
            (((Vector3.subVectors w.«end» w.start).normalize).multiplyScalar
              ((determineExtendingWall (w0 :: rest)).thickness / 2 +
                0.01))).distanceTo w.start =
            (determineExtendingWall (w0 :: rest)).thickness / 2 + 0.01)) ∧
      (¬ w.start.distanceTo point < 0.01 → w.«end».distanceTo point < 0.01 →
        buttConnection m point (w0 :: rest) w.id = some { g with
          extendedEnd := Vector3.subVectors w.«end»
            (((Vector3.subVectors w.start w.«end»).normalize).multiplyScalar
              ((determineExtendingWall (w0 :: rest)).thickness / 2 + 0.01)),
          wasExtended := true } ∧
        (w.start ≠ w.«end» →
          (Vector3.subVectors w.«end»
            (((Vector3.subVectors w.start w.«end»).normalize).multiplyScalar
              ((determineExtendingWall (w0 :: rest)).thickness / 2 +
                0.01))).distanceTo w.«end» =
            (determineExtendingWall (w0 :: rest)).thickness / 2 + 0.01))) := by
  refine ⟨determineExtendingWall_spec w0 rest, ?_, ?_⟩
  all_goals
    set tw := determineExtendingWall (w0 :: rest) with htw
    have hbutt : buttConnection m point (w0 :: rest) =
        ((w0 :: rest).filter fun w => decide (w.id ≠ tw.id)).foldl
          (buttUpdate point tw.thickness)
          (match m tw.id with
           | none => m
           | some extWall => m.set tw.id { extWall with wasExtended := false }) := rfl
    have hids : ∀ u ∈ (w0 :: rest).filter fun w => decide (w.id ≠ tw.id),
        u.id ≠ tw.id := by
      intro u hu
      have := List.of_mem_filter hu
      exact of_decide_eq_true this
    have hnotmem : tw.id ∉
        ((w0 :: rest).filter fun w => decide (w.id ≠ tw.id)).map Wall.id := by
      intro hmem
      obtain ⟨u, hu, huid⟩ := List.mem_map.mp hmem
      exact hids u hu huid
  · intro g hg
    rw [hbutt, foldl_buttUpdate_not_mem _ _ _ _ _ hnotmem]
    simp only [hg]
    exact ExtMap.set_self _ _ _
  · intro w hw hwid g hg
    have hwmem : w ∈ (w0 :: rest).filter fun w => decide (w.id ≠ tw.id) :=
      List.mem_filter.mpr ⟨hw, decide_eq_true hwid⟩
    have hfnodup : (((w0 :: rest).filter fun w =>
        decide (w.id ≠ tw.id)).map Wall.id).Nodup :=
      List.Nodup.sublist (List.Sublist.map Wall.id (List.filter_sublist _)) hnodup
    have hm1 : (match m tw.id with
        | none => m
        | some extWall => m.set tw.id { extWall with wasExtended := false }) w.id =
        m w.id := by
      cases htwv : m tw.id with
      | none => rfl
      | some extWall => exact ExtMap.set_ne m tw.id w.id _ hwid
    have hstep : buttConnection m point (w0 :: rest) w.id =
        buttUpdate point tw.thickness m w w.id := by
      rw [hbutt, foldl_buttUpdate_apply _ _ _ _ _ hwmem hfnodup]
      exact buttUpdate_congr _ _ _ _ _ hm1
    have hd : (0 : ℝ) ≤ tw.thickness / 2 + 0.01 := by linarith
    constructor
    · intro hs
      refine ⟨by rw [hstep, buttUpdate_start point tw.thickness m w g hg hs], ?_⟩
      intro hnd
      have hvne : Vector3.subVectors w.«end» w.start ≠ (⟨0, 0, 0⟩ : Vector3) := by
        intro hz
        exact hnd ((Vector3.subVectors_eq_zero_iff w.«end» w.start).mp hz).symm
      rw [Vector3.distanceTo_subVectors_self, Vector3.length_multiplyScalar,
        Vector3.length_normalize hvne, abs_of_nonneg hd]
      ring
    · intro hs he
      refine ⟨by rw [hstep, buttUpdate_end point tw.thickness m w g hg hs he], ?_⟩
      intro hnd
      have hvne : Vector3.subVectors w.start w.«end» ≠ (⟨0, 0, 0⟩ : Vector3) := by
        intro hz
        exact hnd ((Vector3.subVectors_eq_zero_iff w.start w.«end»).mp hz)
      rw [Vector3.distanceTo_subVectors_self, Vector3.length_multiplyScalar,
        Vector3.length_normalize hvne, abs_of_nonneg hd]
      ring

/-- Fold evaluation of `determineExtendingWall` on three walls whose
middle wall wins. -/
theorem determineExtendingWall_three (a b c : Wall)
    (h1 : b.start.distanceTo b.«end» > a.start.distanceTo a.«end»)
    (h2 : ¬ c.start.distanceTo c.«end» > b.start.distanceTo b.«end») :
    determineExtendingWall [a, b, c] = b := by
  rw [determineExtendingWall]
  rw [List.foldl_cons, List.foldl_cons, List.foldl_nil]
  rw [if_pos h1, if_neg h2]

/-- C5 witness: a concrete T of three walls at the origin — the longest
wall `B` (thickness 0.5) is the through wall and wall `C` is displaced by
`0.5/2 + 0.01 = 0.26` along its own axis. -/
theorem buttConnection_through_witness :
    buttConnection
        (fun id => if id = "C" then
          some (initialGeometry ⟨"C", ⟨0, 0, 0⟩, ⟨0, 0, 1⟩, 0.375⟩) else none)
        ⟨0, 0, 0⟩
        [⟨"A", ⟨-1, 0, 0⟩, ⟨0, 0, 0⟩, 0.25⟩, ⟨"B", ⟨0, 0, 0⟩, ⟨1.5, 0, 0⟩, 0.5⟩,
          ⟨"C", ⟨0, 0, 0⟩, ⟨0, 0, 1⟩, 0.375⟩] "C" =
      some ⟨"C", ⟨0, 0, 0⟩, ⟨0, 0, 1⟩, ⟨0, 0, -0.26⟩, ⟨0, 0, 1⟩, true⟩ ∧
    (Vector3.mk 0 0 (-0.26)).distanceTo ⟨0, 0, 0⟩ = 0.26 := by
  have hdA : (Wall.start ⟨"A", ⟨-1, 0, 0⟩, ⟨0, 0, 0⟩, 0.25⟩).distanceTo
      (Wall.«end» ⟨"A", ⟨-1, 0, 0⟩, ⟨0, 0, 0⟩, 0.25⟩) = 1 :=
    Vector3.distanceTo_concrete (by norm_num)
      (by norm_num [Vector3.subVectors, Vector3.lengthSq])
  have hdB : (Wall.start ⟨"B", ⟨0, 0, 0⟩, ⟨1.5, 0, 0⟩, 0.5⟩).distanceTo
      (Wall.«end» ⟨"B", ⟨0, 0, 0⟩, ⟨1.5, 0, 0⟩, 0.5⟩) = 1.5 :=
    Vector3.distanceTo_concrete (by norm_num)
      (by norm_num [Vector3.subVectors, Vector3.lengthSq])
  have hdC : (Wall.start ⟨"C", ⟨0, 0, 0⟩, ⟨0, 0, 1⟩, 0.375⟩).distanceTo
      (Wall.«end» ⟨"C", ⟨0, 0, 0⟩, ⟨0, 0, 1⟩, 0.375⟩) = 1 :=
    Vector3.distanceTo_concrete (by norm_num)
      (by norm_num [Vector3.subVectors, Vector3.lengthSq])
  have htw : determineExtendingWall
      [⟨"A", ⟨-1, 0, 0⟩, ⟨0, 0, 0⟩, 0.25⟩, ⟨"B", ⟨0, 0, 0⟩, ⟨1.5, 0, 0⟩, 0.5⟩,
        ⟨"C", ⟨0, 0, 0⟩, ⟨0, 0, 1⟩, 0.375⟩] =
      ⟨"B", ⟨0, 0, 0⟩, ⟨1.5, 0, 0⟩, 0.5⟩ :=
    determineExtendingWall_three _ _ _ (by rw [hdB, hdA]; norm_num)
      (by rw [hdC, hdB]; norm_num)
  have hnodup : (([⟨"A", ⟨-1, 0, 0⟩, ⟨0, 0, 0⟩, 0.25⟩,
      ⟨"B", ⟨0, 0, 0⟩, ⟨1.5, 0, 0⟩, 0.5⟩,
      ⟨"C", ⟨0, 0, 0⟩, ⟨0, 0, 1⟩, 0.375⟩] : List Wall).map Wall.id).Nodup := by
    show (["A", "B", "C"] : List String).Nodup
    decide
  have hmain := buttConnection_through
    (fun id => if id = "C" then
      some (initialGeometry ⟨"C", ⟨0, 0, 0⟩, ⟨0, 0, 1⟩, 0.375⟩) else none)
    ⟨0, 0, 0⟩ ⟨"A", ⟨-1, 0, 0⟩, ⟨0, 0, 0⟩, 0.25⟩
    [⟨"B", ⟨0, 0, 0⟩, ⟨1.5, 0, 0⟩, 0.5⟩, ⟨"C", ⟨0, 0, 0⟩, ⟨0, 0, 1⟩, 0.375⟩]
    hnodup (by rw [htw]; norm_num)
  obtain ⟨-, -, h3⟩ := hmain
  rw [htw] at h3
  have hg : (fun id => if id = "C" then
      some (initialGeometry ⟨"C", ⟨0, 0, 0⟩, ⟨0, 0, 1⟩, 0.375⟩) else none)
      (Wall.id ⟨"C", ⟨0, 0, 0⟩, ⟨0, 0, 1⟩, 0.375⟩) =
      some (initialGeometry ⟨"C", ⟨0, 0, 0⟩, ⟨0, 0, 1⟩, 0.375⟩) := by
    show (if ("C" : String) = "C" then _ else none) = _
    rw [if_pos rfl]
  have h3C := h3 ⟨"C", ⟨0, 0, 0⟩, ⟨0, 0, 1⟩, 0.375⟩ (by simp) (by decide)
    (initialGeometry ⟨"C", ⟨0, 0, 0⟩, ⟨0, 0, 1⟩, 0.375⟩) hg
  have hs : (Wall.start ⟨"C", ⟨0, 0, 0⟩, ⟨0, 0, 1⟩, 0.375⟩).distanceTo
      ⟨0, 0, 0⟩ < 0.01 := by
    show (Vector3.mk 0 0 0).distanceTo ⟨0, 0, 0⟩ < 0.01
    rw [Vector3.distanceTo_self]; norm_num
  obtain ⟨heq, hmag⟩ := h3C.1 hs
  have hnd : (Wall.start ⟨"C", ⟨0, 0, 0⟩, ⟨0, 0, 1⟩, 0.375⟩) ≠
      (Wall.«end» ⟨"C", ⟨0, 0, 0⟩, ⟨0, 0, 1⟩, 0.375⟩) := by
    intro h
    have hz := congrArg Vector3.z h
    norm_num at hz
  have hvec : Vector3.subVectors (Wall.start ⟨"C", ⟨0, 0, 0⟩, ⟨0, 0, 1⟩, 0.375⟩)
      (((Vector3.subVectors (Wall.«end» ⟨"C", ⟨0, 0, 0⟩, ⟨0, 0, 1⟩, 0.375⟩)
        (Wall.start ⟨"C", ⟨0, 0, 0⟩, ⟨0, 0, 1⟩, 0.375⟩)).normalize).multiplyScalar
        ((0.5 : ℝ) / 2 + 0.01)) = ⟨0, 0, -0.26⟩ := by
    have hsub : Vector3.subVectors (Wall.«end» ⟨"C", ⟨0, 0, 0⟩, ⟨0, 0, 1⟩, 0.375⟩)
        (Wall.start ⟨"C", ⟨0, 0, 0⟩, ⟨0, 0, 1⟩, 0.375⟩) = (⟨0, 0, 1⟩ : Vector3) := by
      show Vector3.subVectors ⟨0, 0, 1⟩ ⟨0, 0, 0⟩ = _
      simp [Vector3.subVectors]
    rw [hsub, Vector3.normalize_concrete (show (0:ℝ) < 1 by norm_num)
      (by norm_num [Vector3.lengthSq])]
    show Vector3.subVectors ⟨0, 0, 0⟩ _ = _
    simp only [Vector3.multiplyScalar, Vector3.subVectors, Vector3.mk.injEq]
    norm_num
  rw [hvec] at heq hmag
  refine ⟨heq, ?_⟩
  have := hmag hnd
  rw [show ((0.5 : ℝ) / 2 + 0.01) = 0.26 by norm_num] at this
  exact this

/-! ## C6: strategy resolution -/

/-- C6 amended: `auto` maps 2-wall corner (L) joints to the miter branch
and every other joint kind to the butt branch; explicit `butt` applies the
butt branch to every joint kind; explicit `miter` applies the miter branch
only to 2-wall L-joints and falls back to the butt branch for every other
joint kind (T, cross, oblique) — it does not override uniformly. -/
theorem processConnection_dispatch (jointMethod : WallJointMethod) (m : ExtMap)
    (connection : ConnectionPoint)
    (hne : connection.jointType ≠ JointType.NONE) :
    (jointMethod = WallJointMethod.butt →
      processConnection jointMethod m connection =
        buttConnection m connection.point connection.walls) ∧
    (jointMethod = WallJointMethod.miter →
      connection.jointType = JointType.L_JOINT → connection.walls.length = 2 →
      processConnection jointMethod m connection =
        miterConnection m connection.point connection.walls) ∧
    (jointMethod = WallJointMethod.miter →
      (connection.jointType ≠ JointType.L_JOINT ∨ connection.walls.length ≠ 2) →
      processConnection jointMethod m connection =
        buttConnection m connection.point connection.walls) ∧
    (jointMethod = WallJointMethod.auto →
      connection.jointType = JointType.L_JOINT → connection.walls.length = 2 →
      processConnection jointMethod m connection =
        miterConnection m connection.point connection.walls) ∧
    (jointMethod = WallJointMethod.auto →
      connection.jointType ≠ JointType.L_JOINT →
      processConnection jointMethod m connection =
        buttConnection m connection.point connection.walls) ∧
    (jointMethod = WallJointMethod.auto →
      connection.jointType = JointType.L_JOINT → connection.walls.length ≠ 2 →
      processConnection jointMethod m connection =
        buttConnection m connection.point connection.walls) := by
  refine ⟨?_, ?_, ?_, ?_, ?_, ?_⟩
  · rintro rfl
    unfold processConnection
    rw [if_neg hne, if_neg (by rintro ⟨hmm, -⟩; rw [if_neg (by decide)] at hmm; cases hmm)]
  · rintro rfl hL h2
    unfold processConnection
    rw [if_neg hne, if_pos ⟨by rw [if_neg (by decide)], hL, h2⟩]
  · rintro rfl hor
    unfold processConnection
    rw [if_neg hne, if_neg ?_]
    rintro ⟨-, hL, h2⟩
    rcases hor with h | h
    · exact h hL
    · exact h h2
  · rintro rfl hL h2
    unfold processConnection
    rw [if_neg hne, if_pos ⟨by rw [if_pos rfl, if_pos hL], hL, h2⟩]
  · rintro rfl hL
    unfold processConnection
    rw [if_neg hne, if_neg (by rintro ⟨-, hLj, -⟩; exact hL hLj)]
  · rintro rfl hL h2
    unfold processConnection
    rw [if_neg hne, if_neg (by rintro ⟨-, -, h2'⟩; exact h2 h2')]

/-! ### Concrete evaluation helpers -/

theorem not_distanceTo_lt {a b : Vector3} {t : ℝ} (ht : 0 < t)
    (h : ¬ (Vector3.subVectors a b).lengthSq < t ^ 2) : ¬ a.distanceTo b < t :=
  fun hc => h ((Vector3.distanceTo_lt_iff ht).mp hc)

theorem distanceTo_lt_of_sq {a b : Vector3} {t : ℝ} (ht : 0 < t)
    (h : (Vector3.subVectors a b).lengthSq < t ^ 2) : a.distanceTo b < t :=
  (Vector3.distanceTo_lt_iff ht).mpr h

theorem insertEndpoint_nil (p : Vector3) (wall : Wall) (dedup : Bool) (tol : ℝ) :
    insertEndpoint [] p wall dedup tol = [(p, [wall])] := by
  rw [insertEndpoint]

theorem insertEndpoint_cons_hit (q : Vector3) (ws : List Wall)
    (rest : List PointBucket) (p : Vector3) (wall : Wall) (tol : ℝ)
    (h : q.distanceTo p < tol) :
    insertEndpoint ((q, ws) :: rest) p wall false tol = (q, ws ++ [wall]) :: rest := by
  rw [insertEndpoint, if_pos h, if_neg ?_]
  rintro ⟨hf, -⟩
  cases hf

theorem insertEndpoint_cons_miss (q : Vector3) (ws : List Wall)
    (rest : List PointBucket) (p : Vector3) (wall : Wall) (dedup : Bool) (tol : ℝ)
    (h : ¬ q.distanceTo p < tol) :
    insertEndpoint ((q, ws) :: rest) p wall dedup tol =
      (q, ws) :: insertEndpoint rest p wall dedup tol := by
  rw [insertEndpoint, if_neg h]

/-- The `pointMap` of the T fixture: one bucket per distinct endpoint, the
origin bucket holding all three walls. -/
theorem buildPointMap_T :
    buildPointMap [wallTA, wallTB, wallTC] 0.01 =
      [(wallTA.start, [wallTA]), (wallTA.«end», [wallTA, wallTB, wallTC]),
       (wallTB.«end», [wallTB]), (wallTC.«end», [wallTC])] := by
  have hzero : (0 : ℝ) < 0.01 := by norm_num
  have mAsAe : ¬ wallTA.start.distanceTo wallTA.«end» < 0.01 :=
    not_distanceTo_lt hzero
      (by norm_num [wallTA, Vector3.subVectors, Vector3.lengthSq])
  have mAsBs : ¬ wallTA.start.distanceTo wallTB.start < 0.01 :=
    not_distanceTo_lt hzero
      (by norm_num [wallTA, wallTB, Vector3.subVectors, Vector3.lengthSq])
  have hAeBs : wallTA.«end».distanceTo wallTB.start < 0.01 :=
    distanceTo_lt_of_sq hzero
      (by norm_num [wallTA, wallTB, Vector3.subVectors, Vector3.lengthSq])
  have mAsBe : ¬ wallTA.start.distanceTo wallTB.«end» < 0.01 :=
    not_distanceTo_lt hzero
      (by norm_num [wallTA, wallTB, Vector3.subVectors, Vector3.lengthSq])
  have mAeBe : ¬ wallTA.«end».distanceTo wallTB.«end» < 0.01 :=
    not_distanceTo_lt hzero
      (by norm_num [wallTA, wallTB, Vector3.subVectors, Vector3.lengthSq])
  have mAsCs : ¬ wallTA.start.distanceTo wallTC.start < 0.01 :=
    not_distanceTo_lt hzero
      (by norm_num [wallTA, wallTC, Vector3.subVectors, Vector3.lengthSq])
  have hAeCs : wallTA.«end».distanceTo wallTC.start < 0.01 :=
    distanceTo_lt_of_sq hzero
      (by norm_num [wallTA, wallTC, Vector3.subVectors, Vector3.lengthSq])
  have mAsCe : ¬ wallTA.start.distanceTo wallTC.«end» < 0.01 :=
    not_distanceTo_lt hzero
      (by norm_num [wallTA, wallTC, Vector3.subVectors, Vector3.lengthSq])
  have mAeCe : ¬ wallTA.«end».distanceTo wallTC.«end» < 0.01 :=
    not_distanceTo_lt hzero
      (by norm_num [wallTA, wallTC, Vector3.subVectors, Vector3.lengthSq])
  have mBeCe : ¬ wallTB.«end».distanceTo wallTC.«end» < 0.01 :=
    not_distanceTo_lt hzero
      (by norm_num [wallTB, wallTC, Vector3.subVectors, Vector3.lengthSq])
  unfold buildPointMap
  rw [List.foldl_cons, List.foldl_cons, List.foldl_cons, List.foldl_nil]
  rw [insertEndpoint_nil]
  rw [insertEndpoint_cons_miss _ _ _ _ _ _ _ mAsAe, insertEndpoint_nil]
  rw [insertEndpoint_cons_miss _ _ _ _ _ _ _ mAsBs,
    insertEndpoint_cons_hit _ _ _ _ _ _ hAeBs]
  rw [insertEndpoint_cons_miss _ _ _ _ _ _ _ mAsBe,
    insertEndpoint_cons_miss _ _ _ _ _ _ _ mAeBe, insertEndpoint_nil]
  rw [insertEndpoint_cons_miss _ _ _ _ _ _ _ mAsCs,
    insertEndpoint_cons_hit _ _ _ _ _ _ hAeCs]
  rw [insertEndpoint_cons_miss _ _ _ _ _ _ _ mAsCe,
    insertEndpoint_cons_miss _ _ _ _ _ _ _ mAeCe,
    insertEndpoint_cons_miss _ _ _ _ _ _ _ mBeCe, insertEndpoint_nil]
  rfl

/-- Classification of the T fixture's shared origin: three touching walls
give a T-joint. -/
theorem detectJointType_T :
    detectJointType [wallTA, wallTB, wallTC] wallTA.«end» 0.01 =
      JointType.T_JOINT := by
  have hzero : (0 : ℝ) < 0.01 := by norm_num
  have hA : decide ((wallTA.start.distanceTo wallTA.«end» < 0.01) ∨
      (wallTA.«end».distanceTo wallTA.«end» < 0.01)) = true :=
    decide_eq_true (Or.inr (by rw [Vector3.distanceTo_self]; norm_num))
  have hB : decide ((wallTB.start.distanceTo wallTA.«end» < 0.01) ∨
      (wallTB.«end».distanceTo wallTA.«end» < 0.01)) = true :=
    decide_eq_true (Or.inl (distanceTo_lt_of_sq hzero
      (by norm_num [wallTA, wallTB, Vector3.subVectors, Vector3.lengthSq])))
  have hC : decide ((wallTC.start.distanceTo wallTA.«end» < 0.01) ∨
      (wallTC.«end».distanceTo wallTA.«end» < 0.01)) = true :=
    decide_eq_true (Or.inl (distanceTo_lt_of_sq hzero
      (by norm_num [wallTA, wallTC, Vector3.subVectors, Vector3.lengthSq])))
  unfold detectJointType
  rw [@List.filter_cons_of_pos Wall
      (fun w => decide ((w.start.distanceTo wallTA.«end» < 0.01) ∨
        (w.«end».distanceTo wallTA.«end» < 0.01))) wallTA [wallTB, wallTC] hA,
    @List.filter_cons_of_pos Wall
      (fun w => decide ((w.start.distanceTo wallTA.«end» < 0.01) ∨
        (w.«end».distanceTo wallTA.«end» < 0.01))) wallTB [wallTC] hB,
    @List.filter_cons_of_pos Wall
      (fun w => decide ((w.start.distanceTo wallTA.«end» < 0.01) ∨
        (w.«end».distanceTo wallTA.«end» < 0.01))) wallTC [] hC,
    List.filter_nil]

/-- The single connection point of the T fixture. -/
theorem findConnectionPoints_T :
    findConnectionPoints [wallTA, wallTB, wallTC] 0.01 =
      [⟨wallTA.«end», [wallTA, wallTB, wallTC], JointType.T_JOINT⟩] := by
  unfold findConnectionPoints
  rw [buildPointMap_T]
  rw [List.filterMap_cons, if_neg (by decide)]
  rw [List.filterMap_cons, if_pos (by decide)]
  rw [List.filterMap_cons, if_neg (by decide)]
  rw [List.filterMap_cons, if_neg (by decide)]
  rw [List.filterMap_nil, detectJointType_T]

/-- Fold evaluation of `determineExtendingWall` on two walls whose first
wall wins (tie or longer). -/
theorem determineExtendingWall_two (a b : Wall)
    (h : ¬ b.start.distanceTo b.«end» > a.start.distanceTo a.«end») :
    determineExtendingWall [a, b] = a := by
  rw [determineExtendingWall, List.foldl_cons, List.foldl_nil, if_neg h]

/-- The `pointMap` of the chain fixture `V — W — U`. -/
theorem buildPointMap_chain :
    buildPointMap [wallCV, wallCW, wallCU] 0.01 =
      [(wallCV.start, [wallCV]), (wallCV.«end», [wallCV, wallCW]),
       (wallCW.«end», [wallCW, wallCU]), (wallCU.«end», [wallCU])] := by
  have hzero : (0 : ℝ) < 0.01 := by norm_num
  have mVsVe : ¬ wallCV.start.distanceTo wallCV.«end» < 0.01 :=
    not_distanceTo_lt hzero
      (by norm_num [wallCV, Vector3.subVectors, Vector3.lengthSq])
  have mVsWs : ¬ wallCV.start.distanceTo wallCW.start < 0.01 :=
    not_distanceTo_lt hzero
      (by norm_num [wallCV, wallCW, Vector3.subVectors, Vector3.lengthSq])
  have hVeWs : wallCV.«end».distanceTo wallCW.start < 0.01 :=
    distanceTo_lt_of_sq hzero
      (by norm_num [wallCV, wallCW, Vector3.subVectors, Vector3.lengthSq])
  have mVsWe : ¬ wallCV.start.distanceTo wallCW.«end» < 0.01 :=
    not_distanceTo_lt hzero
      (by norm_num [wallCV, wallCW, Vector3.subVectors, Vector3.lengthSq])
  have mVeWe : ¬ wallCV.«end».distanceTo wallCW.«end» < 0.01 :=
    not_distanceTo_lt hzero
      (by norm_num [wallCV, wallCW, Vector3.subVectors, Vector3.lengthSq])
  have mVsUs : ¬ wallCV.start.distanceTo wallCU.start < 0.01 :=
    not_distanceTo_lt hzero
      (by norm_num [wallCV, wallCU, Vector3.subVectors, Vector3.lengthSq])
  have mVeUs : ¬ wallCV.«end».distanceTo wallCU.start < 0.01 :=
    not_distanceTo_lt hzero
      (by norm_num [wallCV, wallCU, Vector3.subVectors, Vector3.lengthSq])
  have hWeUs : wallCW.«end».distanceTo wallCU.start < 0.01 :=
    distanceTo_lt_of_sq hzero
      (by norm_num [wallCW, wallCU, Vector3.subVectors, Vector3.lengthSq])
  have mVsUe : ¬ wallCV.start.distanceTo wallCU.«end» < 0.01 :=
    not_distanceTo_lt hzero
      (by norm_num [wallCV, wallCU, Vector3.subVectors, Vector3.lengthSq])
  have mVeUe : ¬ wallCV.«end».distanceTo wallCU.«end» < 0.01 :=
    not_distanceTo_lt hzero
      (by norm_num [wallCV, wallCU, Vector3.subVectors, Vector3.lengthSq])
  have mWeUe : ¬ wallCW.«end».distanceTo wallCU.«end» < 0.01 :=
    not_distanceTo_lt hzero
      (by norm_num [wallCW, wallCU, Vector3.subVectors, Vector3.lengthSq])
  unfold buildPointMap
  rw [List.foldl_cons, List.foldl_cons, List.foldl_cons, List.foldl_nil]
  rw [insertEndpoint_nil]
  rw [insertEndpoint_cons_miss _ _ _ _ _ _ _ mVsVe, insertEndpoint_nil]
  rw [insertEndpoint_cons_miss _ _ _ _ _ _ _ mVsWs,
    insertEndpoint_cons_hit _ _ _ _ _ _ hVeWs]
  rw [insertEndpoint_cons_miss _ _ _ _ _ _ _ mVsWe,
    insertEndpoint_cons_miss _ _ _ _ _ _ _ mVeWe, insertEndpoint_nil]
  rw [insertEndpoint_cons_miss _ _ _ _ _ _ _ mVsUs,
    insertEndpoint_cons_miss _ _ _ _ _ _ _ mVeUs,
    insertEndpoint_cons_hit _ _ _ _ _ _ hWeUs]
  rw [insertEndpoint_cons_miss _ _ _ _ _ _ _ mVsUe,
    insertEndpoint_cons_miss _ _ _ _ _ _ _ mVeUe,
    insertEndpoint_cons_miss _ _ _ _ _ _ _ mWeUe, insertEndpoint_nil]
  rfl

/-- Classification of the chain's first junction (`V` meets `W` at the
origin at a right angle): a corner L-joint. -/
theorem detectJointType_chain1 :
    detectJointType [wallCV, wallCW] wallCV.«end» 0.01 = JointType.L_JOINT := by
  have hzero : (0 : ℝ) < 0.01 := by norm_num
  have hsWVe : wallCW.start.distanceTo wallCV.«end» < 0.01 :=
    distanceTo_lt_of_sq hzero
      (by norm_num [wallCV, wallCW, Vector3.subVectors, Vector3.lengthSq])
  have hV : decide ((wallCV.start.distanceTo wallCV.«end» < 0.01) ∨
      (wallCV.«end».distanceTo wallCV.«end» < 0.01)) = true :=
    decide_eq_true (Or.inr (by rw [Vector3.distanceTo_self]; norm_num))
  have hW : decide ((wallCW.start.distanceTo wallCV.«end» < 0.01) ∨
      (wallCW.«end».distanceTo wallCV.«end» < 0.01)) = true :=
    decide_eq_true (Or.inl hsWVe)
  have hdirV : getDirectionFromPoint wallCV wallCV.«end» =
      Vector3.multiplyScalar ⟨-2, 0, 0⟩ (1 / 2) := by
    unfold getDirectionFromPoint
    rw [if_neg (not_distanceTo_lt hzero
      (by norm_num [wallCV, Vector3.subVectors, Vector3.lengthSq]))]
    rw [show Vector3.subVectors wallCV.start wallCV.«end» = (⟨-2, 0, 0⟩ : Vector3) by
      show Vector3.subVectors ⟨-2, 0, 0⟩ ⟨0, 0, 0⟩ = _
      simp [Vector3.subVectors]]
    exact Vector3.normalize_concrete (by norm_num) (by norm_num [Vector3.lengthSq])
  have hdirW : getDirectionFromPoint wallCW wallCV.«end» =
      Vector3.multiplyScalar ⟨0, 0, 1⟩ (1 / 1) := by
    unfold getDirectionFromPoint
    rw [if_pos hsWVe]
    rw [show Vector3.subVectors wallCW.«end» wallCW.start = (⟨0, 0, 1⟩ : Vector3) by
      show Vector3.subVectors ⟨0, 0, 1⟩ ⟨0, 0, 0⟩ = _
      simp [Vector3.subVectors]]
    exact Vector3.normalize_concrete (by norm_num) (by norm_num [Vector3.lengthSq])
  unfold detectJointType
  rw [@List.filter_cons_of_pos Wall
      (fun w => decide ((w.start.distanceTo wallCV.«end» < 0.01) ∨
        (w.«end».distanceTo wallCV.«end» < 0.01))) wallCV [wallCW] hV,
    @List.filter_cons_of_pos Wall
      (fun w => decide ((w.start.distanceTo wallCV.«end» < 0.01) ∨
        (w.«end».distanceTo wallCV.«end» < 0.01))) wallCW [] hW,
    List.filter_nil]
  show (if |Real.arccos (max (-1) (min 1
      ((getDirectionFromPoint wallCV wallCV.«end»).dot
        (getDirectionFromPoint wallCW wallCV.«end»)))) - Real.pi| < 0.1
    then JointType.NONE else JointType.L_JOINT) = JointType.L_JOINT
  rw [hdirV, hdirW]
  rw [show (Vector3.multiplyScalar ⟨-2, 0, 0⟩ (1 / 2)).dot
      (Vector3.multiplyScalar ⟨0, 0, 1⟩ (1 / 1)) = 0 by
    norm_num [Vector3.dot, Vector3.multiplyScalar]]
  rw [show max (-1 : ℝ) (min 1 0) = 0 by norm_num, Real.arccos_zero]
  rw [if_neg ?_]
  have hpi := Real.pi_gt_three
  rw [abs_of_nonpos (by linarith)]
  intro h
  linarith

/-- Classification of the chain's second junction (`W` meets `U` at
`(0,0,1)` at a right angle): a corner L-joint. -/
theorem detectJointType_chain2 :
    detectJointType [wallCW, wallCU] wallCW.«end» 0.01 = JointType.L_JOINT := by
  have hzero : (0 : ℝ) < 0.01 := by norm_num
  have hsUWe : wallCU.start.distanceTo wallCW.«end» < 0.01 :=
    distanceTo_lt_of_sq hzero
      (by norm_num [wallCW, wallCU, Vector3.subVectors, Vector3.lengthSq])
  have hW : decide ((wallCW.start.distanceTo wallCW.«end» < 0.01) ∨
      (wallCW.«end».distanceTo wallCW.«end» < 0.01)) = true :=
    decide_eq_true (Or.inr (by rw [Vector3.distanceTo_self]; norm_num))
  have hU : decide ((wallCU.start.distanceTo wallCW.«end» < 0.01) ∨
      (wallCU.«end».distanceTo wallCW.«end» < 0.01)) = true :=
    decide_eq_true (Or.inl hsUWe)
  have hdirW : getDirectionFromPoint wallCW wallCW.«end» =
      Vector3.multiplyScalar ⟨0, 0, -1⟩ (1 / 1) := by
    unfold getDirectionFromPoint
    rw [if_neg (not_distanceTo_lt hzero
      (by norm_num [wallCW, Vector3.subVectors, Vector3.lengthSq]))]
    rw [show Vector3.subVectors wallCW.start wallCW.«end» = (⟨0, 0, -1⟩ : Vector3) by
      show Vector3.subVectors ⟨0, 0, 0⟩ ⟨0, 0, 1⟩ = _
      simp [Vector3.subVectors]]
    exact Vector3.normalize_concrete (by norm_num) (by norm_num [Vector3.lengthSq])
  have hdirU : getDirectionFromPoint wallCU wallCW.«end» =
      Vector3.multiplyScalar ⟨0.5, 0, 0⟩ (1 / 0.5) := by
    unfold getDirectionFromPoint
    rw [if_pos hsUWe]
    rw [show Vector3.subVectors wallCU.«end» wallCU.start = (⟨0.5, 0, 0⟩ : Vector3) by
      show Vector3.subVectors ⟨0.5, 0, 1⟩ ⟨0, 0, 1⟩ = _
      simp [Vector3.subVectors]]
    exact Vector3.normalize_concrete (by norm_num) (by norm_num [Vector3.lengthSq])
  unfold detectJointType
  rw [@List.filter_cons_of_pos Wall
      (fun w => decide ((w.start.distanceTo wallCW.«end» < 0.01) ∨
        (w.«end».distanceTo wallCW.«end» < 0.01))) wallCW [wallCU] hW,
    @List.filter_cons_of_pos Wall
      (fun w => decide ((w.start.distanceTo wallCW.«end» < 0.01) ∨
        (w.«end».distanceTo wallCW.«end» < 0.01))) wallCU [] hU,
    List.filter_nil]
  show (if |Real.arccos (max (-1) (min 1
      ((getDirectionFromPoint wallCW wallCW.«end»).dot
        (getDirectionFromPoint wallCU wallCW.«end»)))) - Real.pi| < 0.1
    then JointType.NONE else JointType.L_JOINT) = JointType.L_JOINT
  rw [hdirW, hdirU]
  rw [show (Vector3.multiplyScalar ⟨0, 0, -1⟩ (1 / 1)).dot
      (Vector3.multiplyScalar ⟨0.5, 0, 0⟩ (1 / 0.5)) = 0 by
    norm_num [Vector3.dot, Vector3.multiplyScalar]]
  rw [show max (-1 : ℝ) (min 1 0) = 0 by norm_num, Real.arccos_zero]
  rw [if_neg ?_]
  have hpi := Real.pi_gt_three
  rw [abs_of_nonpos (by linarith)]
  intro h
  linarith

/-- The two connection points of the chain fixture, both corner joints. -/
theorem findConnectionPoints_chain :
    findConnectionPoints [wallCV, wallCW, wallCU] 0.01 =
      [⟨wallCV.«end», [wallCV, wallCW], JointType.L_JOINT⟩,
       ⟨wallCW.«end», [wallCW, wallCU], JointType.L_JOINT⟩] := by
  unfold findConnectionPoints
  rw [buildPointMap_chain]
  rw [List.filterMap_cons, if_neg (by decide)]
  rw [List.filterMap_cons, if_pos (by decide)]
  rw [List.filterMap_cons, if_pos (by decide)]
  rw [List.filterMap_cons, if_neg (by decide)]
  rw [List.filterMap_nil, detectJointType_chain1, detectJointType_chain2]

/-- C6 amended witness: explicit `butt` on a T-joint dispatches to the butt
branch. -/
theorem processConnection_dispatch_witness :
    processConnection WallJointMethod.butt (fun _ => none)
        ⟨⟨0, 0, 0⟩, [], JointType.T_JOINT⟩ =
      buttConnection (fun _ => none) ⟨0, 0, 0⟩ [] :=
  (processConnection_dispatch WallJointMethod.butt (fun _ => none)
    ⟨⟨0, 0, 0⟩, [], JointType.T_JOINT⟩ (by decide)).1 rfl

/-- C6 counterexample: on the T fixture, the explicit `miter` strategy does
not apply the miter method — the junction is resolved by the butt method
(wall `C` is displaced by the through wall `B`'s half thickness, 0.26,
landing at `(0,0,-0.26)`), while the miter method at this right-angle
junction would move `C`'s endpoint to `(0,0,-0.1975)`. -/
theorem processWallNetwork_miter_cex :
    processWallNetwork [wallTA, wallTB, wallTC] WallJointMethod.miter "C" =
      some ⟨"C", ⟨0, 0, 0⟩, ⟨0, 0, 1⟩, ⟨0, 0, -0.26⟩, ⟨0, 0, 1⟩, true⟩ ∧
    (calculateMiterExtension wallTC wallTA.«end»
        (calculateAngleBetweenWalls wallTC wallTB wallTA.«end»)).start =
      ⟨0, 0, -0.1975⟩ ∧
    (⟨0, 0, -0.26⟩ : Vector3) ≠ (⟨0, 0, -0.1975⟩ : Vector3) := by
  have hzero : (0 : ℝ) < 0.01 := by norm_num
  have hdA : wallTA.start.distanceTo wallTA.«end» = 1 :=
    Vector3.distanceTo_concrete (by norm_num)
      (by norm_num [wallTA, Vector3.subVectors, Vector3.lengthSq])
  have hdB : wallTB.start.distanceTo wallTB.«end» = 1.5 :=
    Vector3.distanceTo_concrete (by norm_num)
      (by norm_num [wallTB, Vector3.subVectors, Vector3.lengthSq])
  have hdC : wallTC.start.distanceTo wallTC.«end» = 1 :=
    Vector3.distanceTo_concrete (by norm_num)
      (by norm_num [wallTC, Vector3.subVectors, Vector3.lengthSq])
  have htw : determineExtendingWall [wallTA, wallTB, wallTC] = wallTB :=
    determineExtendingWall_three _ _ _ (by rw [hdB, hdA]; norm_num)
      (by rw [hdC, hdB]; norm_num)
  have hinitB : (List.foldl (fun m wall => ExtMap.set m wall.id (initialGeometry wall))
      (fun _ => none) [wallTA, wallTB, wallTC]) wallTB.id =
      some (initialGeometry wallTB) := by
    rw [List.foldl_cons, List.foldl_cons, List.foldl_cons, List.foldl_nil]
    rw [ExtMap.set_ne _ _ _ _ (by decide), ExtMap.set_self]
  have hinitC : (List.foldl (fun m wall => ExtMap.set m wall.id (initialGeometry wall))
      (fun _ => none) [wallTA, wallTB, wallTC]) wallTC.id =
      some (initialGeometry wallTC) := by
    rw [List.foldl_cons, List.foldl_cons, List.foldl_cons, List.foldl_nil]
    rw [ExtMap.set_self]
  have hsC : wallTC.start.distanceTo wallTA.«end» < 0.01 :=
    distanceTo_lt_of_sq hzero
      (by norm_num [wallTA, wallTC, Vector3.subVectors, Vector3.lengthSq])
  have hsB : wallTB.start.distanceTo wallTA.«end» < 0.01 :=
    distanceTo_lt_of_sq hzero
      (by norm_num [wallTA, wallTB, Vector3.subVectors, Vector3.lengthSq])
  have hmap : processWallNetwork [wallTA, wallTB, wallTC] WallJointMethod.miter =
      buttConnection
        (List.foldl (fun m wall => ExtMap.set m wall.id (initialGeometry wall))
          (fun _ => none) [wallTA, wallTB, wallTC])
        wallTA.«end» [wallTA, wallTB, wallTC] := by
    simp only [processWallNetwork]
    rw [findConnectionPoints_T, List.foldl_cons, List.foldl_nil]
    unfold processConnection
    rw [if_neg (show ¬ (ConnectionPoint.mk wallTA.«end» [wallTA, wallTB, wallTC]
      JointType.T_JOINT).jointType = JointType.NONE by decide)]
    rw [if_neg (by rintro ⟨-, hL, -⟩; exact absurd hL (by decide))]
  have hvec : Vector3.subVectors wallTC.start
      (((Vector3.subVectors wallTC.«end» wallTC.start).normalize).multiplyScalar
        (wallTB.thickness / 2 + 0.01)) = ⟨0, 0, -0.26⟩ := by
    have hsub : Vector3.subVectors wallTC.«end» wallTC.start = (⟨0, 0, 1⟩ : Vector3) := by
      show Vector3.subVectors ⟨0, 0, 1⟩ ⟨0, 0, 0⟩ = _
      simp [Vector3.subVectors]
    rw [hsub, Vector3.normalize_concrete (show (0 : ℝ) < 1 by norm_num)
      (by norm_num [Vector3.lengthSq])]
    show Vector3.subVectors ⟨0, 0, 0⟩
      ((Vector3.multiplyScalar ⟨0, 0, 1⟩ (1 / 1)).multiplyScalar ((0.5 : ℝ) / 2 + 0.01)) = _
    simp only [Vector3.multiplyScalar, Vector3.subVectors, Vector3.mk.injEq]
    norm_num
  have hgC : ((List.foldl (fun m wall => ExtMap.set m wall.id (initialGeometry wall))
      (fun _ => none) [wallTA, wallTB, wallTC]).set wallTB.id
        { initialGeometry wallTB with wasExtended := false }) wallTC.id =
      some (initialGeometry wallTC) := by
    rw [ExtMap.set_ne _ _ _ _ (by decide)]
    exact hinitC
  have hbc : buttConnection
      (List.foldl (fun m wall => ExtMap.set m wall.id (initialGeometry wall))
        (fun _ => none) [wallTA, wallTB, wallTC])
      wallTA.«end» [wallTA, wallTB, wallTC] wallTC.id =
      some ⟨"C", ⟨0, 0, 0⟩, ⟨0, 0, 1⟩, ⟨0, 0, -0.26⟩, ⟨0, 0, 1⟩, true⟩ := by
    simp only [buttConnection]
    rw [htw]
    rw [@List.filter_cons_of_pos Wall (fun w => decide (w.id ≠ wallTB.id)) wallTA
        [wallTB, wallTC] (by decide),
      @List.filter_cons_of_neg Wall (fun w => decide (w.id ≠ wallTB.id)) wallTB
        [wallTC] (by decide),
      @List.filter_cons_of_pos Wall (fun w => decide (w.id ≠ wallTB.id)) wallTC
        [] (by decide),
      List.filter_nil]
    simp only [hinitB]
    rw [foldl_buttUpdate_apply _ _ _ _ _ (by simp) (by decide)]
    rw [buttUpdate_start _ _ _ _ _ hgC hsC]
    rw [hvec]
    rfl
  refine ⟨?_, ?_, ?_⟩
  · rw [hmap]
    exact hbc
  · have hsubC : Vector3.subVectors wallTC.«end» wallTC.start = (⟨0, 0, 1⟩ : Vector3) := by
      show Vector3.subVectors ⟨0, 0, 1⟩ ⟨0, 0, 0⟩ = _
      simp [Vector3.subVectors]
    have hsubB : Vector3.subVectors wallTB.«end» wallTB.start = (⟨1.5, 0, 0⟩ : Vector3) := by
      show Vector3.subVectors ⟨1.5, 0, 0⟩ ⟨0, 0, 0⟩ = _
      simp [Vector3.subVectors]
    have hdir1 : getDirectionFromPoint wallTC wallTA.«end» =
        Vector3.multiplyScalar ⟨0, 0, 1⟩ (1 / 1) := by
      unfold getDirectionFromPoint
      rw [if_pos hsC, hsubC, Vector3.normalize_concrete (show (0 : ℝ) < 1 by norm_num)
        (by norm_num [Vector3.lengthSq])]
    have hdir2 : getDirectionFromPoint wallTB wallTA.«end» =
        Vector3.multiplyScalar ⟨1.5, 0, 0⟩ (1 / 1.5) := by
      unfold getDirectionFromPoint
      rw [if_pos hsB, hsubB, Vector3.normalize_concrete (show (0 : ℝ) < 1.5 by norm_num)
        (by norm_num [Vector3.lengthSq])]
    have hang : calculateAngleBetweenWalls wallTC wallTB wallTA.«end» = Real.pi / 2 := by
      unfold calculateAngleBetweenWalls
      rw [hdir1, hdir2]
      show Real.arccos (max (-1) (min 1
        ((Vector3.multiplyScalar ⟨0, 0, 1⟩ (1 / 1)).dot
          (Vector3.multiplyScalar ⟨1.5, 0, 0⟩ (1 / 1.5))))) = Real.pi / 2
      rw [show (Vector3.multiplyScalar ⟨0, 0, 1⟩ (1 / 1)).dot
          (Vector3.multiplyScalar ⟨1.5, 0, 0⟩ (1 / 1.5)) = 0 by
        norm_num [Vector3.dot, Vector3.multiplyScalar]]
      rw [show max (-1 : ℝ) (min 1 0) = 0 by norm_num, Real.arccos_zero]
    rw [hang]
    have hsqrt2 : (1 : ℝ) ≤ Real.sqrt 2 := by
      rw [show (1 : ℝ) = Real.sqrt 1 by rw [Real.sqrt_one]]
      exact Real.sqrt_le_sqrt (by norm_num)
    have hsin : ¬ |Real.sin (Real.pi / 2 / 2)| < 0.1 := by
      rw [show Real.pi / 2 / 2 = Real.pi / 4 by ring, Real.sin_pi_div_four]
      rw [abs_of_nonneg (by positivity)]
      intro h
      nlinarith
    unfold calculateMiterExtension
    rw [if_neg hsin, if_pos hsC]
    have htan : Real.tan (Real.pi / 2 / 2) = 1 := by
      rw [show Real.pi / 2 / 2 = Real.pi / 4 by ring, Real.tan_pi_div_four]
    have hsub' : Vector3.subVectors wallTC.start wallTC.«end» = (⟨0, 0, -1⟩ : Vector3) := by
      show Vector3.subVectors ⟨0, 0, 0⟩ ⟨0, 0, 1⟩ = _
      simp [Vector3.subVectors]
    show Vector3.addVectors wallTC.start
      (((Vector3.subVectors wallTC.start wallTC.«end»).normalize).multiplyScalar
        (wallTC.thickness / 2 / Real.tan (Real.pi / 2 / 2) + 0.01)) = _
    rw [htan, hsub', Vector3.normalize_concrete (show (0 : ℝ) < 1 by norm_num)
      (by norm_num [Vector3.lengthSq])]
    show Vector3.addVectors ⟨0, 0, 0⟩
      ((Vector3.multiplyScalar ⟨0, 0, -1⟩ (1 / 1)).multiplyScalar
        ((0.375 : ℝ) / 2 / 1 + 0.01)) = _
    simp only [Vector3.multiplyScalar, Vector3.addVectors, Vector3.mk.injEq]
    norm_num
  · intro h
    have hz := congrArg Vector3.z h
    norm_num at hz

/-! ## C8: the `wasExtended` flag -/

/-- C8 (code bug): on the chain fixture `V — W — U` under the butt method,
wall `W` is first butt-extended at the origin junction (its start moves to
`(0,0,-0.1975)` and its flag becomes true), and is then designated the
through wall of the second junction, where the resolver unconditionally
resets its `wasExtended` flag to `false` — the final record has
`extendedStart ≠ originalStart` yet `wasExtended = false`, contradicting
the documented meaning of the flag. -/
theorem processWallNetwork_wasExtended_bug :
    processWallNetwork [wallCV, wallCW, wallCU] WallJointMethod.butt "W" =
      some ⟨"W", ⟨0, 0, 0⟩, ⟨0, 0, 1⟩, ⟨0, 0, -0.1975⟩, ⟨0, 0, 1⟩, false⟩ ∧
    (⟨0, 0, -0.1975⟩ : Vector3) ≠ (⟨0, 0, 0⟩ : Vector3) := by
  have hzero : (0 : ℝ) < 0.01 := by norm_num
  have hdV : wallCV.start.distanceTo wallCV.«end» = 2 :=
    Vector3.distanceTo_concrete (by norm_num)
      (by norm_num [wallCV, Vector3.subVectors, Vector3.lengthSq])
  have hdW : wallCW.start.distanceTo wallCW.«end» = 1 :=
    Vector3.distanceTo_concrete (by norm_num)
      (by norm_num [wallCW, Vector3.subVectors, Vector3.lengthSq])
  have hdU : wallCU.start.distanceTo wallCU.«end» = 0.5 :=
    Vector3.distanceTo_concrete (by norm_num)
      (by norm_num [wallCU, Vector3.subVectors, Vector3.lengthSq])
  have htw1 : determineExtendingWall [wallCV, wallCW] = wallCV :=
    determineExtendingWall_two _ _ (by rw [hdW, hdV]; norm_num)
  have htw2 : determineExtendingWall [wallCW, wallCU] = wallCW :=
    determineExtendingWall_two _ _ (by rw [hdU, hdW]; norm_num)
  have hinitW : (List.foldl (fun m wall => ExtMap.set m wall.id (initialGeometry wall))
      (fun _ => none) [wallCV, wallCW, wallCU]) wallCW.id =
      some (initialGeometry wallCW) := by
    rw [List.foldl_cons, List.foldl_cons, List.foldl_cons, List.foldl_nil]
    rw [ExtMap.set_ne _ _ _ _ (by decide), ExtMap.set_self]
  have hinitV : (List.foldl (fun m wall => ExtMap.set m wall.id (initialGeometry wall))
      (fun _ => none) [wallCV, wallCW, wallCU]) wallCV.id =
      some (initialGeometry wallCV) := by
    rw [List.foldl_cons, List.foldl_cons, List.foldl_cons, List.foldl_nil]
    rw [ExtMap.set_ne _ _ _ _ (by decide), ExtMap.set_ne _ _ _ _ (by decide),
      ExtMap.set_self]
  have hsW1 : wallCW.start.distanceTo wallCV.«end» < 0.01 :=
    distanceTo_lt_of_sq hzero
      (by norm_num [wallCV, wallCW, Vector3.subVectors, Vector3.lengthSq])
  have hmap : processWallNetwork [wallCV, wallCW, wallCU] WallJointMethod.butt =
      processConnection WallJointMethod.butt
        (processConnection WallJointMethod.butt
          (List.foldl (fun m wall => ExtMap.set m wall.id (initialGeometry wall))
            (fun _ => none) [wallCV, wallCW, wallCU])
          ⟨wallCV.«end», [wallCV, wallCW], JointType.L_JOINT⟩)
        ⟨wallCW.«end», [wallCW, wallCU], JointType.L_JOINT⟩ := by
    simp only [processWallNetwork]
    rw [findConnectionPoints_chain, List.foldl_cons, List.foldl_cons, List.foldl_nil]
  have hstep1 : processConnection WallJointMethod.butt
      (List.foldl (fun m wall => ExtMap.set m wall.id (initialGeometry wall))
        (fun _ => none) [wallCV, wallCW, wallCU])
      ⟨wallCV.«end», [wallCV, wallCW], JointType.L_JOINT⟩ =
      buttConnection
        (List.foldl (fun m wall => ExtMap.set m wall.id (initialGeometry wall))
          (fun _ => none) [wallCV, wallCW, wallCU])
        wallCV.«end» [wallCV, wallCW] := by
    unfold processConnection
    rw [if_neg (show ¬ (ConnectionPoint.mk wallCV.«end» [wallCV, wallCW]
      JointType.L_JOINT).jointType = JointType.NONE by decide)]
    rw [if_neg ?_]
    rintro ⟨hm, -⟩
    rw [if_neg (by decide)] at hm
    exact absurd hm (by decide)
  have hbc1 : buttConnection
      (List.foldl (fun m wall => ExtMap.set m wall.id (initialGeometry wall))
        (fun _ => none) [wallCV, wallCW, wallCU])
      wallCV.«end» [wallCV, wallCW] =
      buttUpdate wallCV.«end» wallCV.thickness
        (ExtMap.set
          (List.foldl (fun m wall => ExtMap.set m wall.id (initialGeometry wall))
            (fun _ => none) [wallCV, wallCW, wallCU])
          wallCV.id { initialGeometry wallCV with wasExtended := false })
        wallCW := by
    simp only [buttConnection]
    rw [htw1]
    rw [@List.filter_cons_of_neg Wall (fun w => decide (w.id ≠ wallCV.id)) wallCV
        [wallCW] (by decide),
      @List.filter_cons_of_pos Wall (fun w => decide (w.id ≠ wallCV.id)) wallCW
        [] (by decide),
      List.filter_nil]
    simp only [hinitV]
    rw [List.foldl_cons, List.foldl_nil]
  have hm1W : (ExtMap.set
      (List.foldl (fun m wall => ExtMap.set m wall.id (initialGeometry wall))
        (fun _ => none) [wallCV, wallCW, wallCU])
      wallCV.id { initialGeometry wallCV with wasExtended := false }) wallCW.id =
      some (initialGeometry wallCW) := by
    rw [ExtMap.set_ne _ _ _ _ (by decide)]
    exact hinitW
  have hm2W : (buttUpdate wallCV.«end» wallCV.thickness
      (ExtMap.set
        (List.foldl (fun m wall => ExtMap.set m wall.id (initialGeometry wall))
          (fun _ => none) [wallCV, wallCW, wallCU])
        wallCV.id { initialGeometry wallCV with wasExtended := false })
      wallCW) wallCW.id =
      some { initialGeometry wallCW with
        extendedStart := Vector3.subVectors wallCW.start
          (((Vector3.subVectors wallCW.«end» wallCW.start).normalize).multiplyScalar
            (wallCV.thickness / 2 + 0.01)),
        wasExtended := true } :=
    buttUpdate_start _ _ _ _ _ hm1W hsW1
  have hstep2 : ∀ m : ExtMap, processConnection WallJointMethod.butt m
      ⟨wallCW.«end», [wallCW, wallCU], JointType.L_JOINT⟩ =
      buttConnection m wallCW.«end» [wallCW, wallCU] := by
    intro m
    unfold processConnection
    rw [if_neg (show ¬ (ConnectionPoint.mk wallCW.«end» [wallCW, wallCU]
      JointType.L_JOINT).jointType = JointType.NONE by decide)]
    rw [if_neg ?_]
    rintro ⟨hm, -⟩
    rw [if_neg (by decide)] at hm
    exact absurd hm (by decide)
  have hbc2 : ∀ (m : ExtMap) (g : ExtendedWallGeometry), m wallCW.id = some g →
      buttConnection m wallCW.«end» [wallCW, wallCU] wallCW.id =
      some { g with wasExtended := false } := by
    intro m g hg
    simp only [buttConnection]
    rw [htw2]
    rw [@List.filter_cons_of_neg Wall (fun w => decide (w.id ≠ wallCW.id)) wallCW
        [wallCU] (by decide),
      @List.filter_cons_of_pos Wall (fun w => decide (w.id ≠ wallCW.id)) wallCU
        [] (by decide),
      List.filter_nil]
    simp only [hg]
    rw [List.foldl_cons, List.foldl_nil]
    rw [buttUpdate_apply_ne _ _ _ _ _ (by decide)]
    rw [ExtMap.set_self]
  have hXW : Vector3.subVectors wallCW.start
      (((Vector3.subVectors wallCW.«end» wallCW.start).normalize).multiplyScalar
        (wallCV.thickness / 2 + 0.01)) = ⟨0, 0, -0.1975⟩ := by
    rw [show Vector3.subVectors wallCW.«end» wallCW.start = (⟨0, 0, 1⟩ : Vector3) by
      show Vector3.subVectors ⟨0, 0, 1⟩ ⟨0, 0, 0⟩ = _
      simp [Vector3.subVectors]]
    rw [Vector3.normalize_concrete (show (0 : ℝ) < 1 by norm_num)
      (by norm_num [Vector3.lengthSq])]
    show Vector3.subVectors ⟨0, 0, 0⟩
      ((Vector3.multiplyScalar ⟨0, 0, 1⟩ (1 / 1)).multiplyScalar
        ((0.375 : ℝ) / 2 + 0.01)) = _
    simp only [Vector3.multiplyScalar, Vector3.subVectors, Vector3.mk.injEq]
    norm_num
  constructor
  · rw [hmap, hstep1, hbc1, hstep2]
    have := hbc2 _ _ hm2W
    rw [hXW] at this
    exact this
  · intro h
    have hz := congrArg Vector3.z h
    norm_num at hz

/-! ## C10: shape of the resolver's output map -/

theorem preservesMeta_refl (m : ExtMap) : PreservesMeta m m := by
  intro x
  refine ⟨Iff.rfl, fun g g' hg hg' => ?_⟩
  rw [hg] at hg'
  cases hg'
  exact ⟨rfl, rfl, rfl⟩

theorem preservesMeta_trans {m₁ m₂ m₃ : ExtMap} (h12 : PreservesMeta m₁ m₂)
    (h23 : PreservesMeta m₂ m₃) : PreservesMeta m₁ m₃ := by
  intro x
  refine ⟨(h23 x).1.trans (h12 x).1, fun g g' hg hg' => ?_⟩
  cases hmid : m₂ x with
  | none =>
    rw [((h12 x).1.mp hmid : m₁ x = none)] at hg
    cases hg
  | some gmid =>
    obtain ⟨ha, hb, hc⟩ := (h12 x).2 g gmid hg hmid
    obtain ⟨ha', hb', hc'⟩ := (h23 x).2 gmid g' hmid hg'
    exact ⟨ha'.trans ha, hb'.trans hb, hc'.trans hc⟩

/-- `ExtMap.set` of a record with unchanged metadata at an existing key
preserves the invariant. -/
theorem preservesMeta_set {m : ExtMap} {id : String} {existing g₂ : ExtendedWallGeometry}
    (hg : m id = some existing)
    (h1 : g₂.wallId = existing.wallId)
    (h2 : g₂.originalStart = existing.originalStart)
    (h3 : g₂.originalEnd = existing.originalEnd) :
    PreservesMeta m (m.set id g₂) := by
  intro x
  by_cases hx : x = id
  · subst hx
    rw [ExtMap.set_self, hg]
    refine ⟨⟨(fun h => by cases h), (fun h => by cases h)⟩, fun g g' hgx hg' => ?_⟩
    cases hgx
    cases hg'
    exact ⟨h1, h2, h3⟩
  · rw [ExtMap.set_ne _ _ _ _ hx]
    refine ⟨Iff.rfl, fun g g' hgx hg' => ?_⟩
    rw [hgx] at hg'
    cases hg'
    exact ⟨rfl, rfl, rfl⟩

theorem preservesMeta_miterUpdate (point : Vector3) (angle : ℝ) (m : ExtMap)
    (wall : Wall) : PreservesMeta m (miterUpdate point angle m wall) := by
  cases hm : m wall.id with
  | none =>
    have : miterUpdate point angle m wall = m := by simp only [miterUpdate, hm]
    rw [this]
    exact preservesMeta_refl m
  | some existing =>
    by_cases hs : wall.start.distanceTo point < 0.01
    · have : miterUpdate point angle m wall = m.set wall.id { existing with
        extendedStart := (calculateMiterExtension wall point angle).start,
        wasExtended := (calculateMiterExtension wall point angle).wasExtended ||
          existing.wasExtended } := by
        simp only [miterUpdate, hm]
        rw [if_pos hs]
      rw [this]
      exact preservesMeta_set hm rfl rfl rfl
    · by_cases he : wall.«end».distanceTo point < 0.01
      · have : miterUpdate point angle m wall = m.set wall.id { existing with
          extendedEnd := (calculateMiterExtension wall point angle).«end»,
          wasExtended := (calculateMiterExtension wall point angle).wasExtended ||
            existing.wasExtended } := by
          simp only [miterUpdate, hm]
          rw [if_neg hs, if_pos he]
        rw [this]
        exact preservesMeta_set hm rfl rfl rfl
      · have : miterUpdate point angle m wall = m := by
          simp only [miterUpdate, hm]
          rw [if_neg hs, if_neg he]
        rw [this]
        exact preservesMeta_refl m

theorem preservesMeta_buttUpdate (point : Vector3) (t : ℝ) (m : ExtMap)
    (wall : Wall) : PreservesMeta m (buttUpdate point t m wall) := by
  cases hm : m wall.id with
  | none =>
    have : buttUpdate point t m wall = m := by simp only [buttUpdate, hm]
    rw [this]
    exact preservesMeta_refl m
  | some existing =>
    by_cases hs : wall.start.distanceTo point < 0.01
    · have : buttUpdate point t m wall = m.set wall.id { existing with
        extendedStart := (calculateButtExtension wall point t).start,
        wasExtended := (calculateButtExtension wall point t).wasExtended ||
          existing.wasExtended } := by
        simp only [buttUpdate, hm]
        rw [if_pos hs]
      rw [this]
      exact preservesMeta_set hm rfl rfl rfl
    · have : buttUpdate point t m wall = m.set wall.id { existing with
        extendedEnd := (calculateButtExtension wall point t).«end»,
        wasExtended := (calculateButtExtension wall point t).wasExtended ||
          existing.wasExtended } := by
        simp only [buttUpdate, hm]
        rw [if_neg hs]
      rw [this]
      exact preservesMeta_set hm rfl rfl rfl

theorem preservesMeta_foldl_miterUpdate (point : Vector3) (angle : ℝ)
    (l : List Wall) (m : ExtMap) :
    PreservesMeta m (l.foldl (miterUpdate point angle) m) := by
  induction l generalizing m with
  | nil => exact preservesMeta_refl m
  | cons a l ih =>
    exact preservesMeta_trans (preservesMeta_miterUpdate point angle m a)
      (ih (miterUpdate point angle m a))

theorem preservesMeta_foldl_buttUpdate (point : Vector3) (t : ℝ)
    (l : List Wall) (m : ExtMap) :
    PreservesMeta m (l.foldl (buttUpdate point t) m) := by
  induction l generalizing m with
  | nil => exact preservesMeta_refl m
  | cons a l ih =>
    exact preservesMeta_trans (preservesMeta_buttUpdate point t m a)
      (ih (buttUpdate point t m a))

theorem preservesMeta_miterConnection (m : ExtMap) (point : Vector3)
    (connectedWalls : List Wall) :
    PreservesMeta m (miterConnection m point connectedWalls) := by
  cases connectedWalls with
  | nil => exact preservesMeta_refl m
  | cons w1 rest =>
    cases rest with
    | nil => exact preservesMeta_refl m
    | cons w2 rest' =>
      exact preservesMeta_foldl_miterUpdate _ _ _ m

theorem preservesMeta_buttConnection (m : ExtMap) (point : Vector3)
    (connectedWalls : List Wall) :
    PreservesMeta m (buttConnection m point connectedWalls) := by
  show PreservesMeta m (List.foldl _ _ _)
  refine @preservesMeta_trans m (match m (determineExtendingWall connectedWalls).id with
    | none => m
    | some extWall => m.set (determineExtendingWall connectedWalls).id
        { extWall with wasExtended := false }) _ ?_ (preservesMeta_foldl_buttUpdate _ _ _ _)
  cases hm : m (determineExtendingWall connectedWalls).id with
  | none =>
    simp only [hm]
    exact preservesMeta_refl m
  | some extWall =>
    simp only [hm]
    exact preservesMeta_set hm rfl rfl rfl

theorem preservesMeta_processConnection (jointMethod : WallJointMethod)
    (m : ExtMap) (connection : ConnectionPoint) :
    PreservesMeta m (processConnection jointMethod m connection) := by
  unfold processConnection
  by_cases h0 : connection.jointType = JointType.NONE
  · rw [if_pos h0]
    exact preservesMeta_refl m
  · rw [if_neg h0]
    by_cases hg : (if jointMethod = WallJointMethod.auto then
        (if connection.jointType = JointType.L_JOINT then WallJointMethod.miter
          else WallJointMethod.butt)
        else jointMethod) = WallJointMethod.miter ∧
        connection.jointType = JointType.L_JOINT ∧ connection.walls.length = 2
    · rw [if_pos hg]
      exact preservesMeta_miterConnection m connection.point connection.walls
    · rw [if_neg hg]
      exact preservesMeta_buttConnection m connection.point connection.walls

theorem preservesMeta_foldl_processConnection (jointMethod : WallJointMethod)
    (cps : List ConnectionPoint) (m : ExtMap) :
    PreservesMeta m (cps.foldl (processConnection jointMethod) m) := by
  induction cps generalizing m with
  | nil => exact preservesMeta_refl m
  | cons cp cps ih =>
    exact preservesMeta_trans (preservesMeta_processConnection jointMethod m cp)
      (ih (processConnection jointMethod m cp))

/-- Every bucket produced by `insertEndpoint` satisfies a per-wall/point
predicate, provided the inserted wall satisfies it for every point within
tolerance of the inserted endpoint. -/
theorem insertEndpoint_forall {Q : Wall → Vector3 → Prop} {tol : ℝ}
    (pm : List PointBucket) (p : Vector3) (wall : Wall) (dedup : Bool)
    (htol : 0 < tol)
    (hpm : ∀ b ∈ pm, ∀ u ∈ b.2, Q u b.1)
    (hQ : ∀ q : Vector3, q.distanceTo p < tol → Q wall q) :
    ∀ b ∈ insertEndpoint pm p wall dedup tol, ∀ u ∈ b.2, Q u b.1 := by
  induction pm with
  | nil =>
    intro b hb u hu
    rw [insertEndpoint] at hb
    rcases List.mem_singleton.mp hb with rfl
    rcases List.mem_singleton.mp hu with rfl
    exact hQ p (by rw [Vector3.distanceTo_self]; exact htol)
  | cons hd tl ih =>
    obtain ⟨q, ws⟩ := hd
    intro b hb u hu
    by_cases hc : q.distanceTo p < tol
    · rw [insertEndpoint, if_pos hc] at hb
      rcases List.mem_cons.mp hb with rfl | hbtl
      · by_cases hdup : dedup ∧ wall ∈ ws
        · rw [if_pos hdup] at hu
          exact hpm (q, ws) (List.mem_cons_self _ _) u hu
        · rw [if_neg hdup] at hu
          rcases List.mem_append.mp hu with hws | hnew
          · exact hpm (q, ws) (List.mem_cons_self _ _) u hws
          · rcases List.mem_singleton.mp hnew with rfl
            exact hQ q hc
      · exact hpm b (List.mem_cons_of_mem _ hbtl) u hu
    · rw [insertEndpoint, if_neg hc] at hb
      rcases List.mem_cons.mp hb with rfl | hbtl
      · exact hpm (q, ws) (List.mem_cons_self _ _) u hu
      · exact ih (fun b' hb' => hpm b' (List.mem_cons_of_mem _ hb')) b hbtl u hu

/-- Bucket invariant of `buildPointMap`: every wall stored in a bucket is an
input wall with an endpoint within tolerance of the bucket's point. -/
theorem buildPointMap_forall (walls : List Wall) (tol : ℝ) (htol : 0 < tol) :
    ∀ b ∈ buildPointMap walls tol, ∀ u ∈ b.2,
      u ∈ walls ∧ (u.start.distanceTo b.1 < tol ∨ u.«end».distanceTo b.1 < tol) := by
  suffices h : ∀ (l : List Wall) (pm : List PointBucket),
      (∀ w ∈ l, w ∈ walls) →
      (∀ b ∈ pm, ∀ u ∈ b.2,
        u ∈ walls ∧ (u.start.distanceTo b.1 < tol ∨ u.«end».distanceTo b.1 < tol)) →
      ∀ b ∈ l.foldl
        (fun pointMap wall =>
          insertEndpoint (insertEndpoint pointMap wall.start wall false tol)
            wall.«end» wall true tol) pm, ∀ u ∈ b.2,
        u ∈ walls ∧ (u.start.distanceTo b.1 < tol ∨ u.«end».distanceTo b.1 < tol) by
    exact h walls [] (fun w hw => hw) (by intro b hb; cases hb)
  intro l
  induction l with
  | nil =>
    intro pm hl hpm
    exact hpm
  | cons w l ih =>
    intro pm hl hpm
    rw [List.foldl_cons]
    refine ih _ (fun w' hw' => hl w' (List.mem_cons_of_mem _ hw')) ?_
    refine @insertEndpoint_forall
      (fun u pt => u ∈ walls ∧
        (u.start.distanceTo pt < tol ∨ u.«end».distanceTo pt < tol)) tol
      (insertEndpoint pm w.start w false tol) w.«end» w true htol
      (@insertEndpoint_forall
        (fun u pt => u ∈ walls ∧
          (u.start.distanceTo pt < tol ∨ u.«end».distanceTo pt < tol)) tol
        pm w.start w false htol hpm ?_) ?_
    · intro q hq
      exact ⟨hl w (List.mem_cons_self _ _),
        Or.inl (by rw [Vector3.distanceTo_comm]; exact hq)⟩
    · intro q hq
      exact ⟨hl w (List.mem_cons_self _ _),
        Or.inr (by rw [Vector3.distanceTo_comm]; exact hq)⟩

/-- Every reported connection point comes from a bucket with at least two
walls, whose point and wall list it copies. -/
theorem mem_findConnectionPoints {walls : List Wall} {tol : ℝ}
    {cp : ConnectionPoint} (h : cp ∈ findConnectionPoints walls tol) :
    ∃ b ∈ buildPointMap walls tol,
      2 ≤ b.2.length ∧ cp.point = b.1 ∧ cp.walls = b.2 := by
  unfold findConnectionPoints at h
  obtain ⟨b, hb, hfb⟩ := List.mem_filterMap.mp h
  by_cases hlen : 2 ≤ b.2.length
  · rw [if_pos hlen] at hfb
    injection hfb with hfb'
    subst hfb'
    exact ⟨b, hb, hlen, rfl, rfl⟩
  · rw [if_neg hlen] at hfb
    cases hfb

theorem initFold_not_mem (walls : List Wall) (m0 : ExtMap) (x : String)
    (h : x ∉ walls.map Wall.id) :
    walls.foldl (fun m wall => ExtMap.set m wall.id (initialGeometry wall)) m0 x =
      m0 x := by
  induction walls generalizing m0 with
  | nil => rfl
  | cons a l ih =>
    simp only [List.map_cons, List.mem_cons, not_or] at h
    show List.foldl _ (ExtMap.set m0 a.id (initialGeometry a)) l x = m0 x
    rw [ih _ h.2, ExtMap.set_ne _ _ _ _ h.1]

theorem initFold_mem (walls : List Wall) (m0 : ExtMap) (w : Wall)
    (hw : w ∈ walls) (hnodup : (walls.map Wall.id).Nodup) :
    walls.foldl (fun m wall => ExtMap.set m wall.id (initialGeometry wall)) m0 w.id =
      some (initialGeometry w) := by
  induction walls generalizing m0 with
  | nil => cases hw
  | cons a l ih =>
    simp only [List.map_cons, List.nodup_cons] at hnodup
    rcases List.mem_cons.mp hw with rfl | hwl
    · show List.foldl _ (ExtMap.set m0 w.id (initialGeometry w)) l w.id = _
      rw [initFold_not_mem l _ _ hnodup.1, ExtMap.set_self]
    · show List.foldl _ (ExtMap.set m0 a.id (initialGeometry a)) l w.id = _
      exact ih _ hwl hnodup.2

theorem miterConnection_apply_not_mem (m : ExtMap) (point : Vector3)
    (ws : List Wall) (x : String) (hx : x ∉ ws.map Wall.id) :
    miterConnection m point ws x = m x := by
  cases ws with
  | nil => rfl
  | cons w1 rest =>
    cases rest with
    | nil => rfl
    | cons w2 rest' =>
      exact foldl_miterUpdate_not_mem _ _ _ _ _ hx

theorem buttConnection_apply_not_mem (m : ExtMap) (point : Vector3) (w0 : Wall)
    (rest : List Wall) (x : String) (hx : x ∉ ((w0 :: rest).map Wall.id)) :
    buttConnection m point (w0 :: rest) x = m x := by
  have htw := (determineExtendingWall_spec w0 rest).1
  have hxtw : x ≠ (determineExtendingWall (w0 :: rest)).id := fun h =>
    hx (h ▸ List.mem_map_of_mem Wall.id htw)
  have hbutting : x ∉ (((w0 :: rest).filter fun w =>
      decide (w.id ≠ (determineExtendingWall (w0 :: rest)).id)).map Wall.id) := by
    intro hmem
    obtain ⟨u, hu, huid⟩ := List.mem_map.mp hmem
    exact hx (huid ▸ List.mem_map_of_mem Wall.id (List.mem_filter.mp hu).1)
  simp only [buttConnection]
  rw [foldl_buttUpdate_not_mem _ _ _ _ _ hbutting]
  cases hm : m (determineExtendingWall (w0 :: rest)).id with
  | none => simp only [hm]
  | some g =>
    simp only [hm]
    exact ExtMap.set_ne _ _ _ _ hxtw

theorem processConnection_apply_not_mem (jointMethod : WallJointMethod)
    (m : ExtMap) (connection : ConnectionPoint)
    (hne : connection.walls ≠ []) (x : String)
    (hx : x ∉ connection.walls.map Wall.id) :
    processConnection jointMethod m connection x = m x := by
  obtain ⟨w0, rest, hcw⟩ : ∃ w0 rest, connection.walls = w0 :: rest := by
    cases hc : connection.walls with
    | nil => exact absurd hc hne
    | cons a l => exact ⟨a, l, rfl⟩
  unfold processConnection
  by_cases h0 : connection.jointType = JointType.NONE
  · rw [if_pos h0]
  · rw [if_neg h0]
    by_cases hg : (if jointMethod = WallJointMethod.auto then
        (if connection.jointType = JointType.L_JOINT then WallJointMethod.miter
          else WallJointMethod.butt)
        else jointMethod) = WallJointMethod.miter ∧
        connection.jointType = JointType.L_JOINT ∧ connection.walls.length = 2
    · rw [if_pos hg]
      exact miterConnection_apply_not_mem m connection.point connection.walls x hx
    · rw [if_neg hg, hcw]
      exact buttConnection_apply_not_mem m connection.point w0 rest x (hcw ▸ hx)

theorem foldl_processConnection_not_touched (jointMethod : WallJointMethod)
    (cps : List ConnectionPoint) (m : ExtMap) (x : String)
    (h : ∀ cp ∈ cps, cp.walls ≠ [] ∧ x ∉ cp.walls.map Wall.id) :
    cps.foldl (processConnection jointMethod) m x = m x := by
  induction cps generalizing m with
  | nil => rfl
  | cons cp cps ih =>
    rw [List.foldl_cons]
    rw [ih _ (fun cp' hcp' => h cp' (List.mem_cons_of_mem _ hcp'))]
    exact processConnection_apply_not_mem jointMethod m cp
      (h cp (List.mem_cons_self _ _)).1 x (h cp (List.mem_cons_self _ _)).2

/-- C10: for every wall collection (with distinct ids), the resolver output
has exactly the input wall ids as keys; every record keeps the wall's
authored start and end as its original endpoints; and a wall neither of
whose endpoints lies at any reported connection point keeps its unextended
record (`extendedStart`/`extendedEnd` equal the originals and `wasExtended`
is `false`). -/
theorem processWallNetwork_records (walls : List Wall)
    (jointMethod : WallJointMethod) (hnodup : (walls.map Wall.id).Nodup) :
    (∀ x : String, (∃ g, processWallNetwork walls jointMethod x = some g) ↔
      x ∈ walls.map Wall.id) ∧
    (∀ w ∈ walls, ∃ g, processWallNetwork walls jointMethod w.id = some g ∧
      g.wallId = w.id ∧ g.originalStart = w.start ∧ g.originalEnd = w.«end») ∧
    (∀ w ∈ walls,
      (∀ cp ∈ findConnectionPoints walls, ¬ w.start.distanceTo cp.point < 0.01 ∧
        ¬ w.«end».distanceTo cp.point < 0.01) →
      processWallNetwork walls jointMethod w.id = some (initialGeometry w)) := by
  have hpwn : processWallNetwork walls jointMethod =
      (findConnectionPoints walls).foldl (processConnection jointMethod)
        (walls.foldl (fun m wall => ExtMap.set m wall.id (initialGeometry wall))
          (fun _ => none)) := rfl
  have hpres := preservesMeta_foldl_processConnection jointMethod
    (findConnectionPoints walls)
    (walls.foldl (fun m wall => ExtMap.set m wall.id (initialGeometry wall))
      (fun _ => none))
  refine ⟨?_, ?_, ?_⟩
  · intro x
    constructor
    · rintro ⟨g, hg⟩
      by_contra hx
      have hinit : (walls.foldl
          (fun m wall => ExtMap.set m wall.id (initialGeometry wall))
          (fun _ => none)) x = none := initFold_not_mem walls _ x hx
      have : processWallNetwork walls jointMethod x = none := by
        rw [hpwn]
        exact (hpres x).1.mpr hinit
      rw [hg] at this
      cases this
    · intro hx
      obtain ⟨w, hw, hwid⟩ := List.mem_map.mp hx
      have hinit := initFold_mem walls (fun _ => none) w hw hnodup
      cases hfin : processWallNetwork walls jointMethod x with
      | none =>
        rw [hpwn] at hfin
        rw [hwid] at hinit
        rw [(hpres x).1.mp hfin] at hinit
        cases hinit
      | some g => exact ⟨g, rfl⟩
  · intro w hw
    have hinit := initFold_mem walls (fun _ => none) w hw hnodup
    cases hfin : processWallNetwork walls jointMethod w.id with
    | none =>
      rw [hpwn] at hfin
      rw [(hpres w.id).1.mp hfin] at hinit
      cases hinit
    | some g =>
      have hmeta := (hpres w.id).2 (initialGeometry w) g hinit (hpwn ▸ hfin)
      exact ⟨g, rfl, hmeta.1, hmeta.2.1, hmeta.2.2⟩
  · intro w hw hno
    have hids : ∀ cp ∈ findConnectionPoints walls,
        cp.walls ≠ [] ∧ w.id ∉ cp.walls.map Wall.id := by
      intro cp hcp
      obtain ⟨b, hb, hblen, hbpoint, hbwalls⟩ := mem_findConnectionPoints hcp
      constructor
      · intro hnil
        rw [hbwalls] at hnil
        rw [hnil] at hblen
        simp at hblen
      · intro hmem
        obtain ⟨u, hu, huid⟩ := List.mem_map.mp hmem
        have hufacts := buildPointMap_forall walls 0.01 (by norm_num) b hb u
          (hbwalls ▸ hu)
        have hueq : u = w :=
          List.inj_on_of_nodup_map hnodup hufacts.1 hw huid
        rw [hueq] at hufacts
        rcases hufacts.2 with ht | ht
        · exact (hno cp hcp).1 (hbpoint ▸ ht)
        · exact (hno cp hcp).2 (hbpoint ▸ ht)
    rw [hpwn, foldl_processConnection_not_touched _ _ _ _ hids]
    exact initFold_mem walls (fun _ => none) w hw hnodup

/-- C10 witness: a single isolated wall yields exactly its own unextended
record. -/
theorem processWallNetwork_records_witness :
    (([wallTA] : List Wall).map Wall.id).Nodup ∧
    processWallNetwork [wallTA] WallJointMethod.auto "A" =
      some (initialGeometry wallTA) := by
  have hnodup : (([wallTA] : List Wall).map Wall.id).Nodup := by
    show (["A"] : List String).Nodup
    decide
  have hfcp : findConnectionPoints [wallTA] 0.01 = [] := by
    have hzero : (0 : ℝ) < 0.01 := by norm_num
    have mAsAe : ¬ wallTA.start.distanceTo wallTA.«end» < 0.01 :=
      not_distanceTo_lt hzero
        (by norm_num [wallTA, Vector3.subVectors, Vector3.lengthSq])
    have hpm : buildPointMap [wallTA] 0.01 =
        [(wallTA.start, [wallTA]), (wallTA.«end», [wallTA])] := by
      unfold buildPointMap
      rw [List.foldl_cons, List.foldl_nil]
      rw [insertEndpoint_nil]
      rw [insertEndpoint_cons_miss _ _ _ _ _ _ _ mAsAe, insertEndpoint_nil]
    unfold findConnectionPoints
    rw [hpm]
    rw [List.filterMap_cons, if_neg (by decide)]
    rw [List.filterMap_cons, if_neg (by decide)]
    rw [List.filterMap_nil]
  have hmain := processWallNetwork_records [wallTA] WallJointMethod.auto hnodup
  have h3 := hmain.2.2 wallTA (List.mem_cons_self _ _) (by rw [hfcp]; intro cp hcp; cases hcp)
  exact ⟨hnodup, h3⟩

/-! ## C1: `buildWallNetworks` partitions the walls -/

theorem addConnectedWalls_zero (allWalls : List Wall) (wall : Wall)
    (st : List String × WallNetwork) :
    addConnectedWalls allWalls 0 wall st = st := rfl

theorem addConnectedWalls_succ (allWalls : List Wall) (fuel : Nat) (wall : Wall)
    (st : List String × WallNetwork) :
    addConnectedWalls allWalls (fuel + 1) wall st =
      if wall.id ∈ st.1 then st
      else
        allWalls.foldl
          (fun st' otherWall =>
            if otherWall.id ∉ st'.1 ∧ wallsAreConnected wall otherWall
            then addConnectedWalls allWalls fuel otherWall st'
            else st')
          (wall.id :: st.1, ⟨st.2.wallIds ++ [wall.id], st.2.walls ++ [wall]⟩) := rfl

theorem buildWallNetworksLoop_nil (allWalls : List Wall) (fuel : Nat)
    (visited : List String) (networks : List WallNetwork) :
    buildWallNetworksLoop allWalls fuel [] visited networks = (visited, networks) := rfl

theorem buildWallNetworksLoop_cons (allWalls : List Wall) (fuel : Nat) (wall : Wall)
    (rest : List Wall) (visited : List String) (networks : List WallNetwork) :
    buildWallNetworksLoop allWalls fuel (wall :: rest) visited networks =
      if wall.id ∈ visited
      then buildWallNetworksLoop allWalls fuel rest visited networks
      else buildWallNetworksLoop allWalls fuel rest
        (addConnectedWalls allWalls fuel wall (visited, ⟨[], []⟩)).1
        (networks ++ [(addConnectedWalls allWalls fuel wall (visited, ⟨[], []⟩)).2]) := rfl

theorem wallsAreConnected_symm {w1 w2 : Wall} {tol : ℝ}
    (h : wallsAreConnected w1 w2 tol) : wallsAreConnected w2 w1 tol := by
  unfold wallsAreConnected at h ⊢
  rcases h with h | h | h | h
  · exact Or.inl (by rwa [Vector3.distanceTo_comm])
  · exact Or.inr (Or.inr (Or.inl (by rwa [Vector3.distanceTo_comm])))
  · exact Or.inr (Or.inl (by rwa [Vector3.distanceTo_comm]))
  · exact Or.inr (Or.inr (Or.inr (by rwa [Vector3.distanceTo_comm])))

theorem countUnvisited_le_length (allWalls : List Wall) (visited : List String) :
    countUnvisited allWalls visited ≤ allWalls.length := by
  unfold countUnvisited
  calc (allWalls.map Wall.id).countP (fun i => decide (i ∉ visited))
        ≤ (allWalls.map Wall.id).length := List.countP_le_length _
    _ = allWalls.length := List.length_map _ _

theorem countUnvisited_mono {allWalls : List Wall} {v1 v2 : List String}
    (h : ∀ x ∈ v1, x ∈ v2) :
    countUnvisited allWalls v2 ≤ countUnvisited allWalls v1 := by
  refine List.countP_mono_left ?_
  intro a _ ha
  have h2 : a ∉ v2 := of_decide_eq_true ha
  exact decide_eq_true (fun h1 => h2 (h a h1))

theorem countUnvisited_pos {allWalls : List Wall} {visited : List String} {w : Wall}
    (hw : w ∈ allWalls) (h : w.id ∉ visited) :
    1 ≤ countUnvisited allWalls visited := by
  have hpos : 0 < countUnvisited allWalls visited := by
    unfold countUnvisited
    rw [List.countP_pos_iff]
    exact ⟨w.id, List.mem_map_of_mem _ hw, decide_eq_true h⟩
  omega

theorem countUnvisited_lt {allWalls : List Wall} {v1 v2 : List String} {w : Wall}
    (hw : w ∈ allWalls) (h1 : w.id ∉ v1) (h2 : w.id ∈ v2)
    (hsub : ∀ x ∈ v1, x ∈ v2) :
    countUnvisited allWalls v2 < countUnvisited allWalls v1 := by
  have hmem : w.id ∈ allWalls.map Wall.id := List.mem_map_of_mem _ hw
  obtain ⟨l1, l2, hsplit⟩ := List.append_of_mem hmem
  have m1 : List.countP (fun i => decide (i ∉ v2)) l1 ≤
      List.countP (fun i => decide (i ∉ v1)) l1 :=
    List.countP_mono_left (fun a _ ha =>
      decide_eq_true (fun hv1 => (of_decide_eq_true ha) (hsub a hv1)))
  have m2 : List.countP (fun i => decide (i ∉ v2)) l2 ≤
      List.countP (fun i => decide (i ∉ v1)) l2 :=
    List.countP_mono_left (fun a _ ha =>
      decide_eq_true (fun hv1 => (of_decide_eq_true ha) (hsub a hv1)))
  have e2 : decide (w.id ∉ v2) = false := by simp [h2]
  have e1 : decide (w.id ∉ v1) = true := by simp [h1]
  unfold countUnvisited
  rw [hsplit]
  rw [List.countP_append, List.countP_append, List.countP_cons, List.countP_cons]
  simp only [e1, e2]
  have hif3 : (if True then 1 else 0) = 1 := if_pos trivial
  have hif4 : (if false = true then 1 else 0) = 0 := rfl
  rw [hif3, hif4]
  omega

/-- Flattened id membership unpacked to a network witness. -/
theorem mem_flatIds {networks : List WallNetwork} {x : String} :
    x ∈ ((networks.map WallNetwork.walls).flatten.map Wall.id) ↔
      ∃ net ∈ networks, x ∈ net.walls.map Wall.id := by
  constructor
  · intro hx
    obtain ⟨u, hu, hid⟩ := List.mem_map.mp hx
    obtain ⟨lw, hlw, hul⟩ := List.mem_flatten.mp hu
    obtain ⟨net, hnet, hwl⟩ := List.mem_map.mp hlw
    refine ⟨net, hnet, List.mem_map.mpr ⟨u, ?_, hid⟩⟩
    rw [hwl]
    exact hul
  · rintro ⟨net, hnet, hx⟩
    obtain ⟨u, hu, hid⟩ := List.mem_map.mp hx
    exact List.mem_map.mpr ⟨u, List.mem_flatten.mpr
      ⟨net.walls, List.mem_map_of_mem _ hnet, hu⟩, hid⟩

/-- Walls with equal ids drawn from an id-duplicate-free list coincide. -/
theorem id_injOn_of_nodup {allWalls : List Wall}
    (hnodup : (allWalls.map Wall.id).Nodup) {u v : Wall}
    (hu : u ∈ allWalls) (hv : v ∈ allWalls) (hid : u.id = v.id) : u = v :=
  List.inj_on_of_nodup_map hnodup hu hv hid

/-- A flood-fill visit only ever adds visited ids. -/
theorem addConnectedWalls_mono (allWalls : List Wall) :
    ∀ (fuel : Nat) (wall : Wall) (st : List String × WallNetwork) (x : String),
      x ∈ st.1 → x ∈ (addConnectedWalls allWalls fuel wall st).1 := by
  intro fuel
  induction fuel with
  | zero => intro wall st x hx; exact hx
  | succ fuel ih =>
    intro wall st x hx
    rw [addConnectedWalls_succ]
    by_cases hv : wall.id ∈ st.1
    · rw [if_pos hv]; exact hx
    · rw [if_neg hv]
      have inner : ∀ (l : List Wall) (sa : List String × WallNetwork),
          x ∈ sa.1 → x ∈ (List.foldl (fun st' otherWall =>
            if otherWall.id ∉ st'.1 ∧ wallsAreConnected wall otherWall
            then addConnectedWalls allWalls fuel otherWall st' else st') sa l).1 := by
        intro l
        induction l with
        | nil => intro sa hsa; exact hsa
        | cons o rest ihl =>
          intro sa hsa
          rw [List.foldl_cons]
          by_cases hg : o.id ∉ sa.1 ∧ wallsAreConnected wall o
          · rw [if_pos hg]; exact ihl _ (ih o sa x hsa)
          · rw [if_neg hg]; exact ihl _ hsa
      exact inner allWalls _ (List.mem_cons_of_mem _ hx)

/-- The inner scan of a flood-fill visit only ever adds visited ids. -/
theorem addConnectedWalls_foldl_mono (allWalls : List Wall) (fuel : Nat) (wall : Wall) :
    ∀ (l : List Wall) (sa : List String × WallNetwork) (x : String),
      x ∈ sa.1 →
      x ∈ (List.foldl (fun st' otherWall =>
          if otherWall.id ∉ st'.1 ∧ wallsAreConnected wall otherWall
          then addConnectedWalls allWalls fuel otherWall st' else st') sa l).1 := by
  intro l
  induction l with
  | nil => intro sa x hx; exact hx
  | cons o rest ihl =>
    intro sa x hx
    rw [List.foldl_cons]
    by_cases hg : o.id ∉ sa.1 ∧ wallsAreConnected wall o
    · rw [if_pos hg]; exact ihl _ _ (addConnectedWalls_mono allWalls fuel o sa x hx)
    · rw [if_neg hg]; exact ihl _ _ hx

/-- With at least one unit of fuel, a visit marks its own wall visited. -/
theorem addConnectedWalls_visits (allWalls : List Wall) :
    ∀ (fuel : Nat), 1 ≤ fuel → ∀ (wall : Wall) (st : List String × WallNetwork),
      wall.id ∈ (addConnectedWalls allWalls fuel wall st).1 := by
  intro fuel hfuel wall st
  cases fuel with
  | zero => exact absurd hfuel (by norm_num)
  | succ fuel =>
    rw [addConnectedWalls_succ]
    by_cases hv : wall.id ∈ st.1
    · rw [if_pos hv]; exact hv
    · rw [if_neg hv]
      exact addConnectedWalls_foldl_mono allWalls fuel wall allWalls _ _
        (List.mem_cons_self _ _)

/-- Structure of one flood-fill visit: it appends a block `new` of walls to
the network, conses the block's ids (in reverse) onto `visited`; the block's
ids are distinct and fresh, the block's walls come from `allWalls`, and every
block wall other than the visited one is connected to another block wall with
a different id. -/
theorem addConnectedWalls_struct (allWalls : List Wall) :
    ∀ (fuel : Nat) (wall : Wall) (st : List String × WallNetwork),
      wall ∈ allWalls →
      ∃ new : List Wall,
        (addConnectedWalls allWalls fuel wall st).1
            = (new.map Wall.id).reverse ++ st.1 ∧
        (addConnectedWalls allWalls fuel wall st).2.wallIds
            = st.2.wallIds ++ new.map Wall.id ∧
        (addConnectedWalls allWalls fuel wall st).2.walls
            = st.2.walls ++ new ∧
        (new.map Wall.id).Nodup ∧
        (∀ n ∈ new, n.id ∉ st.1) ∧
        (∀ n ∈ new, n ∈ allWalls) ∧
        (∀ n ∈ new, n = wall ∨
          ∃ m ∈ new, m.id ≠ n.id ∧ wallsAreConnected m n 0.01) := by
  intro fuel
  induction fuel with
  | zero =>
    intro wall st _
    exact ⟨[], by rw [addConnectedWalls_zero]; simp, by rw [addConnectedWalls_zero]; simp,
      by rw [addConnectedWalls_zero]; simp, by simp, by simp, by simp, by simp⟩
  | succ fuel ih =>
    intro wall st hwall
    rw [addConnectedWalls_succ]
    by_cases hv : wall.id ∈ st.1
    · rw [if_pos hv]
      exact ⟨[], by simp, by simp, by simp, by simp, by simp, by simp, by simp⟩
    · rw [if_neg hv]
      have inner : ∀ (l : List Wall), (∀ x ∈ l, x ∈ allWalls) →
          ∀ (sa : List String × WallNetwork), wall.id ∈ sa.1 →
          ∃ dnew : List Wall,
            (List.foldl (fun st' otherWall =>
              if otherWall.id ∉ st'.1 ∧ wallsAreConnected wall otherWall
              then addConnectedWalls allWalls fuel otherWall st' else st') sa l).1
                = (dnew.map Wall.id).reverse ++ sa.1 ∧
            (List.foldl (fun st' otherWall =>
              if otherWall.id ∉ st'.1 ∧ wallsAreConnected wall otherWall
              then addConnectedWalls allWalls fuel otherWall st' else st') sa l).2.wallIds
                = sa.2.wallIds ++ dnew.map Wall.id ∧
            (List.foldl (fun st' otherWall =>
              if otherWall.id ∉ st'.1 ∧ wallsAreConnected wall otherWall
              then addConnectedWalls allWalls fuel otherWall st' else st') sa l).2.walls
                = sa.2.walls ++ dnew ∧
            (dnew.map Wall.id).Nodup ∧
            (∀ n ∈ dnew, n.id ∉ sa.1) ∧
            (∀ n ∈ dnew, n ∈ allWalls) ∧
            (∀ n ∈ dnew, ∃ m, (m = wall ∨ m ∈ dnew) ∧ m.id ≠ n.id ∧
              wallsAreConnected m n 0.01) := by
        intro l
        induction l with
        | nil =>
          intro _ sa _
          exact ⟨[], by simp, by simp, by simp, by simp, by simp, by simp, by simp⟩
        | cons o rest ihl =>
          intro hl sa hsa
          rw [List.foldl_cons]
          by_cases hg : o.id ∉ sa.1 ∧ wallsAreConnected wall o
          · rw [if_pos hg]
            obtain ⟨sub, hA, hB, hC, hD, hE, hF, hG⟩ :=
              ih o sa (hl o (List.mem_cons_self _ _))
            obtain ⟨dn, hA2, hB2, hC2, hD2, hE2, hF2, hG2⟩ :=
              ihl (fun x hx => hl x (List.mem_cons_of_mem _ hx))
                (addConnectedWalls allWalls fuel o sa)
                (by rw [hA]; exact List.mem_append_right _ hsa)
            refine ⟨sub ++ dn, ?_, ?_, ?_, ?_, ?_, ?_, ?_⟩
            · rw [hA2, hA, List.map_append, List.reverse_append, List.append_assoc]
            · rw [hB2, hB, List.map_append, List.append_assoc]
            · rw [hC2, hC, List.append_assoc]
            · rw [List.map_append, List.nodup_append]
              refine ⟨hD, hD2, ?_⟩
              intro a ha ha2
              obtain ⟨m, hm, hmid⟩ := List.mem_map.mp ha
              obtain ⟨n, hn, hnid⟩ := List.mem_map.mp ha2
              have hmem : a ∈ (addConnectedWalls allWalls fuel o sa).1 := by
                rw [hA]
                exact List.mem_append_left _
                  (List.mem_reverse.mpr (by rw [← hmid] at ha ⊢; exact ha))
              exact hE2 n hn (by rw [hnid]; exact hmem)
            · intro n hn
              rcases List.mem_append.mp hn with h | h
              · exact hE n h
              · intro hmem
                exact hE2 n h (by
                  rw [hA]
                  exact List.mem_append_right _ hmem)
            · intro n hn
              rcases List.mem_append.mp hn with h | h
              · exact hF n h
              · exact hF2 n h
            · intro n hn
              rcases List.mem_append.mp hn with h | h
              · rcases hG n h with heq | ⟨m, hm, hne, hc⟩
                · refine ⟨wall, Or.inl rfl, ?_, ?_⟩
                  · intro hid
                    rw [heq] at hid
                    exact hg.1 (by rw [← hid]; exact hsa)
                  · rw [heq]; exact hg.2
                · exact ⟨m, Or.inr (List.mem_append_left _ hm), hne, hc⟩
              · obtain ⟨m, hmw, hne, hc⟩ := hG2 n h
                refine ⟨m, ?_, hne, hc⟩
                rcases hmw with h2 | h2
                · exact Or.inl h2
                · exact Or.inr (List.mem_append_right _ h2)
          · rw [if_neg hg]
            exact ihl (fun x hx => hl x (List.mem_cons_of_mem _ hx)) sa hsa
      obtain ⟨dnew, hA, hB, hC, hD, hE, hF, hG⟩ :=
        inner allWalls (fun x hx => hx)
          (wall.id :: st.1, ⟨st.2.wallIds ++ [wall.id], st.2.walls ++ [wall]⟩)
          (List.mem_cons_self _ _)
      refine ⟨wall :: dnew, ?_, ?_, ?_, ?_, ?_, ?_, ?_⟩
      · rw [hA, List.map_cons, List.reverse_cons, List.append_assoc]
        rfl
      · rw [hB, List.append_assoc, List.map_cons]
        rfl
      · rw [hC, List.append_assoc]
        rfl
      · rw [List.map_cons, List.nodup_cons]
        refine ⟨?_, hD⟩
        intro hmem
        obtain ⟨n, hn, hnid⟩ := List.mem_map.mp hmem
        exact hE n hn (by rw [hnid]; exact List.mem_cons_self _ _)
      · intro n hn
        rcases List.mem_cons.mp hn with rfl | h
        · exact hv
        · intro hmem
          exact hE n h (List.mem_cons_of_mem _ hmem)
      · intro n hn
        rcases List.mem_cons.mp hn with rfl | h
        · exact hwall
        · exact hF n h
      · intro n hn
        rcases List.mem_cons.mp hn with rfl | h
        · exact Or.inl rfl
        · obtain ⟨m, hmw, hne, hc⟩ := hG n h
          refine Or.inr ⟨m, ?_, hne, hc⟩
          rcases hmw with h2 | h2
          · rw [h2]; exact List.mem_cons_self _ _
          · exact List.mem_cons_of_mem _ h2

/-- Closure of one flood-fill visit: with fuel at least the number of
unvisited ids, every wall freshly added to the network ends the call with all
of its connected partners visited. -/
theorem addConnectedWalls_conn (allWalls : List Wall) :
    ∀ (fuel : Nat) (wall : Wall) (st : List String × WallNetwork),
      wall ∈ allWalls →
      countUnvisited allWalls st.1 ≤ fuel →
      ∀ n ∈ (addConnectedWalls allWalls fuel wall st).2.walls,
        n ∈ st.2.walls ∨
        ∀ other ∈ allWalls, wallsAreConnected n other 0.01 →
          other.id ∈ (addConnectedWalls allWalls fuel wall st).1 := by
  intro fuel
  induction fuel with
  | zero =>
    intro wall st _ _ n hn
    exact Or.inl hn
  | succ fuel ih =>
    intro wall st hwall hcount n hn
    rw [addConnectedWalls_succ] at hn ⊢
    by_cases hv : wall.id ∈ st.1
    · rw [if_pos hv] at hn ⊢
      exact Or.inl hn
    · rw [if_neg hv] at hn ⊢
      have inner : ∀ (l : List Wall), (∀ x ∈ l, x ∈ allWalls) →
          ∀ (sa : List String × WallNetwork),
            countUnvisited allWalls sa.1 ≤ fuel →
            (∀ u ∈ (List.foldl (fun st' otherWall =>
                if otherWall.id ∉ st'.1 ∧ wallsAreConnected wall otherWall
                then addConnectedWalls allWalls fuel otherWall st' else st') sa l).2.walls,
              u ∈ sa.2.walls ∨
              ∀ other ∈ allWalls, wallsAreConnected u other 0.01 →
                other.id ∈ (List.foldl (fun st' otherWall =>
                  if otherWall.id ∉ st'.1 ∧ wallsAreConnected wall otherWall
                  then addConnectedWalls allWalls fuel otherWall st' else st') sa l).1) ∧
            (∀ o ∈ l, wallsAreConnected wall o 0.01 →
              o.id ∈ (List.foldl (fun st' otherWall =>
                if otherWall.id ∉ st'.1 ∧ wallsAreConnected wall otherWall
                then addConnectedWalls allWalls fuel otherWall st' else st') sa l).1) := by
        intro l
        induction l with
        | nil =>
          intro _ sa _
          refine ⟨?_, ?_⟩
          · intro u hu; exact Or.inl hu
          · intro o ho; exact absurd ho (List.not_mem_nil o)
        | cons o rest ihl =>
          intro hl sa hcsa
          rw [List.foldl_cons]
          by_cases hg : o.id ∉ sa.1 ∧ wallsAreConnected wall o
          · rw [if_pos hg]
            have ho : o ∈ allWalls := hl o (List.mem_cons_self _ _)
            have hf1 : 1 ≤ fuel := le_trans (countUnvisited_pos ho hg.1) hcsa
            have hviso : o.id ∈ (addConnectedWalls allWalls fuel o sa).1 :=
              addConnectedWalls_visits allWalls fuel hf1 o sa
            have hmonoca : ∀ x ∈ sa.1, x ∈ (addConnectedWalls allWalls fuel o sa).1 :=
              fun x hx => addConnectedWalls_mono allWalls fuel o sa x hx
            have hcsc : countUnvisited allWalls (addConnectedWalls allWalls fuel o sa).1 ≤ fuel := by
              have := countUnvisited_lt ho hg.1 hviso hmonoca
              omega
            have hconnc := ih o sa ho hcsa
            obtain ⟨h3, h4⟩ := ihl (fun x hx => hl x (List.mem_cons_of_mem _ hx))
              (addConnectedWalls allWalls fuel o sa) hcsc
            have hmonor : ∀ x ∈ (addConnectedWalls allWalls fuel o sa).1,
                x ∈ (List.foldl (fun st' otherWall =>
                  if otherWall.id ∉ st'.1 ∧ wallsAreConnected wall otherWall
                  then addConnectedWalls allWalls fuel otherWall st' else st')
                  (addConnectedWalls allWalls fuel o sa) rest).1 :=
              fun x hx => addConnectedWalls_foldl_mono allWalls fuel wall rest _ x hx
            refine ⟨?_, ?_⟩
            · intro u hu
              rcases h3 u hu with h | h
              · rcases hconnc u h with h2 | h2
                · exact Or.inl h2
                · refine Or.inr ?_
                  intro other hother hco
                  exact hmonor _ (h2 other hother hco)
              · exact Or.inr h
            · intro o' ho'
              rcases List.mem_cons.mp ho' with rfl | h
              · intro _
                exact hmonor _ hviso
              · exact h4 o' h
          · rw [if_neg hg]
            obtain ⟨h3, h4⟩ := ihl (fun x hx => hl x (List.mem_cons_of_mem _ hx)) sa hcsa
            refine ⟨h3, ?_⟩
            intro o' ho' hco
            rcases List.mem_cons.mp ho' with rfl | h
            · have hin : o'.id ∈ sa.1 := by
                by_contra hnin
                exact hg ⟨hnin, hco⟩
              exact addConnectedWalls_foldl_mono allWalls fuel wall rest sa _ hin
            · exact h4 o' h hco
      have hcst1 : countUnvisited allWalls (wall.id :: st.1) ≤ fuel := by
        have hlt : countUnvisited allWalls (wall.id :: st.1) < countUnvisited allWalls st.1 :=
          countUnvisited_lt hwall hv (List.mem_cons_self _ _)
            (fun x hx => List.mem_cons_of_mem _ hx)
        omega
      obtain ⟨h3, h4⟩ := inner allWalls (fun x hx => hx)
        (wall.id :: st.1, ⟨st.2.wallIds ++ [wall.id], st.2.walls ++ [wall]⟩) hcst1
      rcases h3 n hn with h | h
      · rcases List.mem_append.mp h with h2 | h2
        · exact Or.inl h2
        · have hnw : n = wall := List.mem_singleton.mp h2
          refine Or.inr ?_
          intro other hother hco
          refine h4 other hother ?_
          rw [← hnw]
          exact hco
      · exact Or.inr h

/-- The inner scan does nothing when the visited wall is connected to no
other wall of `allWalls`. -/
theorem addConnectedWalls_foldl_isolated (allWalls : List Wall) (fuel : Nat) (wall : Wall)
    (hiso : ∀ w' ∈ allWalls, w' ≠ wall → ¬ wallsAreConnected wall w' 0.01) :
    ∀ (l : List Wall), (∀ x ∈ l, x ∈ allWalls) →
      ∀ (sa : List String × WallNetwork), wall.id ∈ sa.1 →
      List.foldl (fun st' otherWall =>
        if otherWall.id ∉ st'.1 ∧ wallsAreConnected wall otherWall
        then addConnectedWalls allWalls fuel otherWall st' else st') sa l = sa := by
  intro l
  induction l with
  | nil => intro _ sa _; rfl
  | cons o rest ihl =>
    intro hl sa hsa
    rw [List.foldl_cons]
    have hg : ¬ (o.id ∉ sa.1 ∧ wallsAreConnected wall o) := by
      rintro ⟨hno, hc⟩
      by_cases heq : o = wall
      · exact hno (by rw [heq]; exact hsa)
      · exact hiso o (hl o (List.mem_cons_self _ _)) heq hc
    rw [if_neg hg]
    exact ihl (fun x hx => hl x (List.mem_cons_of_mem _ hx)) sa hsa

/-- A visit of a wall connected to no other wall produces a singleton block. -/
theorem addConnectedWalls_isolated (allWalls : List Wall) (fuel : Nat) (wall : Wall)
    (st : List String × WallNetwork) (hv : wall.id ∉ st.1)
    (hiso : ∀ w' ∈ allWalls, w' ≠ wall → ¬ wallsAreConnected wall w' 0.01) :
    addConnectedWalls allWalls (fuel + 1) wall st =
      (wall.id :: st.1, ⟨st.2.wallIds ++ [wall.id], st.2.walls ++ [wall]⟩) := by
  rw [addConnectedWalls_succ, if_neg hv]
  exact addConnectedWalls_foldl_isolated allWalls fuel wall hiso allWalls
    (fun x hx => hx) _ (List.mem_cons_self _ _)

/-- The outer loop only ever adds visited ids. -/
theorem buildWallNetworksLoop_mono (allWalls : List Wall) (fuel : Nat) :
    ∀ (l : List Wall) (visited : List String) (networks : List WallNetwork) (x : String),
      x ∈ visited → x ∈ (buildWallNetworksLoop allWalls fuel l visited networks).1 := by
  intro l
  induction l with
  | nil => intro visited networks x hx; exact hx
  | cons w rest ihl =>
    intro visited networks x hx
    rw [buildWallNetworksLoop_cons]
    by_cases hv : w.id ∈ visited
    · rw [if_pos hv]; exact ihl _ _ _ hx
    · rw [if_neg hv]
      exact ihl _ _ _ (addConnectedWalls_mono allWalls fuel w (visited, ⟨[], []⟩) x hx)

/-- A duplicate-free flattened id list forces pairwise-disjoint networks. -/
theorem pairwise_disjoint_of_flat_nodup :
    ∀ (networks : List WallNetwork),
      ((networks.map WallNetwork.walls).flatten.map Wall.id).Nodup →
      List.Pairwise (fun n1 n2 => ∀ u, u ∈ n1.walls → u ∉ n2.walls) networks := by
  intro networks
  induction networks with
  | nil => intro _; exact List.Pairwise.nil
  | cons net rest ihn =>
    intro hnodup
    have hsplit : ((net :: rest).map WallNetwork.walls).flatten.map Wall.id
        = net.walls.map Wall.id ++ (rest.map WallNetwork.walls).flatten.map Wall.id := by
      rw [List.map_cons, List.flatten_cons, List.map_append]
    rw [hsplit, List.nodup_append] at hnodup
    obtain ⟨h1, h2, hdisj⟩ := hnodup
    refine List.Pairwise.cons ?_ (ihn h2)
    intro net' hnet' u hu hu'
    exact hdisj (List.mem_map_of_mem _ hu)
      (mem_flatIds.mpr ⟨net', hnet', List.mem_map_of_mem _ hu'⟩)

/-- The outer loop preserves `LoopInvariant` and visits every listed wall. -/
theorem buildWallNetworksLoop_invariant (allWalls : List Wall) (fuel : Nat)
    (hnodupAll : (allWalls.map Wall.id).Nodup)
    (hfuel : allWalls.length ≤ fuel) :
    ∀ (l : List Wall), (∀ x ∈ l, x ∈ allWalls) →
      ∀ (visited : List String) (networks : List WallNetwork),
        LoopInvariant allWalls visited networks →
        LoopInvariant allWalls
          (buildWallNetworksLoop allWalls fuel l visited networks).1
          (buildWallNetworksLoop allWalls fuel l visited networks).2 ∧
        ∀ w ∈ l, w.id ∈ (buildWallNetworksLoop allWalls fuel l visited networks).1 := by
  intro l
  induction l with
  | nil =>
    intro _ visited networks hinv
    refine ⟨hinv, ?_⟩
    intro w hw
    exact absurd hw (List.not_mem_nil w)
  | cons w rest ihl =>
    intro hl visited networks hinv
    rw [buildWallNetworksLoop_cons]
    by_cases hv : w.id ∈ visited
    · rw [if_pos hv]
      obtain ⟨hinvF, hprogF⟩ := ihl (fun x hx => hl x (List.mem_cons_of_mem _ hx))
        visited networks hinv
      refine ⟨hinvF, ?_⟩
      intro w' hw'
      rcases List.mem_cons.mp hw' with rfl | hw2
      · exact buildWallNetworksLoop_mono allWalls fuel rest visited networks _ hv
      · exact hprogF w' hw2
    · rw [if_neg hv]
      obtain ⟨hinv1, hinv2, hinv3, hinv4, hinv5⟩ := hinv
      have hwmem : w ∈ allWalls := hl w (List.mem_cons_self _ _)
      obtain ⟨new, hA, hB, hC, hD, hE, hF, hG⟩ :=
        addConnectedWalls_struct allWalls fuel w (visited, ⟨[], []⟩) hwmem
      have hC' : (addConnectedWalls allWalls fuel w (visited, ⟨[], []⟩)).2.walls = new :=
        hC.trans (List.nil_append new)
      have hf1 : 1 ≤ fuel := by
        have hlen : 0 < allWalls.length := by
          cases allWalls with
          | nil => exact absurd hwmem (List.not_mem_nil w)
          | cons a l2 => simp
        omega
      have hvis : w.id ∈ (addConnectedWalls allWalls fuel w (visited, ⟨[], []⟩)).1 :=
        addConnectedWalls_visits allWalls fuel hf1 w (visited, ⟨[], []⟩)
      have hwid_new : w.id ∈ new.map Wall.id := by
        rw [hA] at hvis
        rcases List.mem_append.mp hvis with h | h
        · exact List.mem_reverse.mp h
        · exact absurd h hv
      have hvis2 : w.id ∈ (addConnectedWalls allWalls fuel w (visited, ⟨[], []⟩)).1 := by
        rw [hA]
        exact List.mem_append_left _ (List.mem_reverse.mpr hwid_new)
      have hcount : countUnvisited allWalls visited ≤ fuel :=
        le_trans (countUnvisited_le_length allWalls visited) hfuel
      have hconn := addConnectedWalls_conn allWalls fuel w (visited, ⟨[], []⟩) hwmem hcount
      have hneigh : ∀ n ∈ new, ∀ other ∈ allWalls, wallsAreConnected n other 0.01 →
          other.id ∈ new.map Wall.id := by
        intro n hn other hother hco
        have h1 := hconn n (by rw [hC']; exact hn)
        rcases h1 with h1 | h1
        · exact absurd h1 (List.not_mem_nil n)
        · have hid := h1 other hother hco
          rw [hA] at hid
          rcases List.mem_append.mp hid with h2 | h2
          · exact List.mem_reverse.mp h2
          · exfalso
            obtain ⟨net', hnet', hidn⟩ := (hinv1 other.id).mp h2
            obtain ⟨u, hu, huid⟩ := List.mem_map.mp hidn
            have hu_all : u ∈ allWalls := hinv3 net' hnet' u hu
            have hue : u = other := id_injOn_of_nodup hnodupAll hu_all hother huid
            subst hue
            have hnid : n.id ∈ net'.walls.map Wall.id :=
              hinv4 net' hnet' u hu n (hF n hn) (wallsAreConnected_symm hco)
            exact hE n hn ((hinv1 n.id).mpr ⟨net', hnet', hnid⟩)
      have hinvNew : LoopInvariant allWalls
          (addConnectedWalls allWalls fuel w (visited, ⟨[], []⟩)).1
          (networks ++ [(addConnectedWalls allWalls fuel w (visited, ⟨[], []⟩)).2]) := by
        refine ⟨?_, ?_, ?_, ?_, ?_⟩
        · intro x
          rw [hA]
          constructor
          · intro hx
            rcases List.mem_append.mp hx with h | h
            · refine ⟨(addConnectedWalls allWalls fuel w (visited, ⟨[], []⟩)).2,
                List.mem_append_right _ (List.mem_cons_self _ _), ?_⟩
              rw [hC']
              exact List.mem_reverse.mp h
            · obtain ⟨net, hnet, hxn⟩ := (hinv1 x).mp h
              exact ⟨net, List.mem_append_left _ hnet, hxn⟩
          · rintro ⟨net, hnet, hxn⟩
            rcases List.mem_append.mp hnet with h | h
            · exact List.mem_append_right _ ((hinv1 x).mpr ⟨net, h, hxn⟩)
            · have hne : net = (addConnectedWalls allWalls fuel w (visited, ⟨[], []⟩)).2 :=
                List.mem_singleton.mp h
              subst hne
              rw [hC'] at hxn
              exact List.mem_append_left _ (List.mem_reverse.mpr hxn)
        · have hflat : (((networks ++
              [(addConnectedWalls allWalls fuel w (visited, ⟨[], []⟩)).2]).map
              WallNetwork.walls).flatten.map Wall.id)
              = ((networks.map WallNetwork.walls).flatten.map Wall.id)
                  ++ new.map Wall.id := by
            rw [List.map_append, List.flatten_append, List.map_append,
              List.map_cons, List.map_nil, List.flatten_cons, List.flatten_nil,
              List.append_nil, hC']
          rw [hflat, List.nodup_append]
          refine ⟨hinv2, hD, ?_⟩
          intro a ha ha2
          obtain ⟨n, hn, hnid⟩ := List.mem_map.mp ha2
          exact hE n hn (by rw [hnid]; exact (hinv1 a).mpr (mem_flatIds.mp ha))
        · intro net hnet u hu
          rcases List.mem_append.mp hnet with h | h
          · exact hinv3 net h u hu
          · have hne := List.mem_singleton.mp h
            subst hne
            rw [hC'] at hu
            exact hF u hu
        · intro net hnet n hn other hother hco
          rcases List.mem_append.mp hnet with h | h
          · exact hinv4 net h n hn other hother hco
          · have hne := List.mem_singleton.mp h
            subst hne
            rw [hC'] at hn ⊢
            exact hneigh n hn other hother hco
        · intro net hnet u hu hiso
          rcases List.mem_append.mp hnet with h | h
          · exact hinv5 net h u hu hiso
          · have hne := List.mem_singleton.mp h
            subst hne
            rw [hC'] at hu ⊢
            rcases hG u hu with huw | ⟨m, hm, hmne, hmc⟩
            · subst huw
              obtain ⟨f, hfe⟩ : ∃ f, fuel = f + 1 := ⟨fuel - 1, by omega⟩
              subst hfe
              have hres := addConnectedWalls_isolated allWalls f u (visited, ⟨[], []⟩) hv hiso
              rw [← hC', hres]
              rfl
            · exfalso
              have hmu : m ≠ u := fun h2 => hmne (by rw [h2])
              exact hiso m (hF m hm) hmu (wallsAreConnected_symm hmc)
      obtain ⟨hinvF, hprogF⟩ := ihl (fun x hx => hl x (List.mem_cons_of_mem _ hx))
        (addConnectedWalls allWalls fuel w (visited, ⟨[], []⟩)).1
        (networks ++ [(addConnectedWalls allWalls fuel w (visited, ⟨[], []⟩)).2]) hinvNew
      refine ⟨hinvF, ?_⟩
      intro w' hw'
      rcases List.mem_cons.mp hw' with rfl | hw2
      · exact buildWallNetworksLoop_mono allWalls fuel rest _ _ _ hvis2
      · exact hprogF w' hw2

/-- **C1.** `buildWallNetworks` partitions any wall collection with
pairwise-distinct ids: every input wall lies in some returned network; every
network wall comes from the input; the flattened id list of the networks is
duplicate-free (each wall appears exactly once across all networks); the
networks are pairwise disjoint; two walls with a pair of endpoints within the
0.01 tolerance always land in the same network; and a wall connected to no
other wall forms a singleton network. -/
theorem buildWallNetworks_partition (walls : List Wall)
    (hnodup : (walls.map Wall.id).Nodup) :
    (∀ w ∈ walls, ∃ net ∈ buildWallNetworks walls, w ∈ net.walls) ∧
    (∀ net ∈ buildWallNetworks walls, ∀ u ∈ net.walls, u ∈ walls) ∧
    (((buildWallNetworks walls).map WallNetwork.walls).flatten.map Wall.id).Nodup ∧
    List.Pairwise (fun n1 n2 => ∀ u, u ∈ n1.walls → u ∉ n2.walls)
      (buildWallNetworks walls) ∧
    (∀ w1 ∈ walls, ∀ w2 ∈ walls, wallsAreConnected w1 w2 0.01 →
      ∃ net ∈ buildWallNetworks walls, w1 ∈ net.walls ∧ w2 ∈ net.walls) ∧
    (∀ w ∈ walls, (∀ w' ∈ walls, w' ≠ w → ¬ wallsAreConnected w w' 0.01) →
      ∃ net ∈ buildWallNetworks walls, net.walls = [w]) := by
  cases walls with
  | nil =>
    refine ⟨?_, ?_, ?_, ?_, ?_, ?_⟩ <;> simp [buildWallNetworks]
  | cons w0 rest0 =>
    have hbn : buildWallNetworks (w0 :: rest0)
        = (buildWallNetworksLoop (w0 :: rest0) (w0 :: rest0).length
            (w0 :: rest0) [] []).2 := rfl
    have hinit : LoopInvariant (w0 :: rest0) [] [] := by
      refine ⟨?_, ?_, ?_, ?_, ?_⟩
      · intro x
        constructor
        · intro hx; exact absurd hx (List.not_mem_nil x)
        · rintro ⟨net, hnet, -⟩; exact absurd hnet (List.not_mem_nil net)
      · simp
      · intro net hnet; exact absurd hnet (List.not_mem_nil net)
      · intro net hnet; exact absurd hnet (List.not_mem_nil net)
      · intro net hnet; exact absurd hnet (List.not_mem_nil net)
    obtain ⟨⟨hI1, hI2, hI3, hI4, hI5⟩, hprog⟩ :=
      buildWallNetworksLoop_invariant (w0 :: rest0) (w0 :: rest0).length hnodup le_rfl
        (w0 :: rest0) (fun x hx => hx) [] [] hinit
    have hcover : ∀ w ∈ w0 :: rest0,
        ∃ net ∈ buildWallNetworks (w0 :: rest0), w ∈ net.walls := by
      intro w hw
      have hwid := hprog w hw
      obtain ⟨net, hnet, hidn⟩ := (hI1 w.id).mp hwid
      obtain ⟨u, hu, huid⟩ := List.mem_map.mp hidn
      have hu_all : u ∈ w0 :: rest0 := hI3 net hnet u hu
      have huw : u = w := id_injOn_of_nodup hnodup hu_all hw huid
      refine ⟨net, by rw [hbn]; exact hnet, ?_⟩
      rw [← huw]
      exact hu
    refine ⟨hcover, ?_, ?_, ?_, ?_, ?_⟩
    · intro net hnet u hu
      rw [hbn] at hnet
      exact hI3 net hnet u hu
    · rw [hbn]; exact hI2
    · rw [hbn]; exact pairwise_disjoint_of_flat_nodup _ hI2
    · intro w1 hw1 w2 hw2 hco
      obtain ⟨net, hnet, hw1n⟩ := hcover w1 hw1
      refine ⟨net, hnet, hw1n, ?_⟩
      rw [hbn] at hnet
      have hid2 : w2.id ∈ net.walls.map Wall.id :=
        hI4 net hnet w1 hw1n w2 hw2 hco
      obtain ⟨u, hu, huid⟩ := List.mem_map.mp hid2
      have hu_all : u ∈ w0 :: rest0 := hI3 net hnet u hu
      have huw : u = w2 := id_injOn_of_nodup hnodup hu_all hw2 huid
      rw [← huw]
      exact hu
    · intro w hw hiso
      obtain ⟨net, hnet, hwn⟩ := hcover w hw
      refine ⟨net, hnet, ?_⟩
      rw [hbn] at hnet
      exact hI5 net hnet w hwn hiso

/-- Witness for `buildWallNetworks_partition`: walls `V` and `U` have distinct
ids and no endpoints within tolerance, so `V` is grouped alone. -/
theorem buildWallNetworks_partition_witness :
    (([wallCV, wallCU].map Wall.id).Nodup) ∧
      ∃ net ∈ buildWallNetworks [wallCV, wallCU], net.walls = [wallCV] := by
  have hnodup : (([wallCV, wallCU]).map Wall.id).Nodup := by decide
  have hzero : (0 : ℝ) < 0.01 := by norm_num
  have hiso : ∀ w' ∈ [wallCV, wallCU], w' ≠ wallCV →
      ¬ wallsAreConnected wallCV w' 0.01 := by
    intro w' hw' hne
    rcases List.mem_cons.mp hw' with rfl | hw2
    · exact absurd rfl hne
    · have hwu : w' = wallCU := List.mem_singleton.mp hw2
      subst hwu
      intro hconn
      rcases hconn with h | h | h | h
      · exact not_distanceTo_lt hzero
          (by norm_num [wallCV, wallCU, Vector3.subVectors, Vector3.lengthSq]) h
      · exact not_distanceTo_lt hzero
          (by norm_num [wallCV, wallCU, Vector3.subVectors, Vector3.lengthSq]) h
      · exact not_distanceTo_lt hzero
          (by norm_num [wallCV, wallCU, Vector3.subVectors, Vector3.lengthSq]) h
      · exact not_distanceTo_lt hzero
          (by norm_num [wallCV, wallCU, Vector3.subVectors, Vector3.lengthSq]) h
  exact ⟨hnodup, (buildWallNetworks_partition [wallCV, wallCU] hnodup).2.2.2.2.2
    wallCV (List.mem_cons_self _ _) hiso⟩

end BIM
